import Mathlib

/-!
# Verification of the SFTPFrontend storage-adapter layer

Shallow embedding of `server/plugin/plg_backend_ftp_only/index.go`
(the FTP adapter, package `plg_backend_ftp_only`) and of the SMB adapter
(package `plg_backend_samba`) contained in the same source file, together
with proofs of the spec's testable properties.

Go strings are modelled as `List Char`; Go `map[string]string` parameter
maps as association lists; the protocol libraries (goftp, go-smb2) and the
remote endpoints as explicit state machines / oracles, since they are
external collaborators of this repository.
-/

namespace SFTP

/-! ## Error taxonomy

`GoErr` models the Go `error` values that flow through the adapters:
the sentinel errors of the host's `common` package (`ErrNotFound`,
`ErrNotAllowed`, ...), `goftp.Error` values carrying a protocol status
code, raw errors from the smb2 library that `os.IsPermission` /
`os.IsNotExist` classify, `NewError(message, status)` values, and
passthrough transport errors. -/

inductive SmbRaw where
  | permission
  | notExist
  | other (msg : String)
deriving DecidableEq, Repr

inductive GoErr where
  | authenticationFailed
  | notFound
  | permissionDenied
  | notAllowed
  | notImplemented
  | newError (message : String) (status : Int)
  | goftp (code : Int) (msg : String)
  | transport (msg : String)
  | smbRaw (r : SmbRaw)
deriving DecidableEq, Repr

/-- `fromSambaErr` from the source: `os.IsPermission` errors map to
`ErrPermissionDenied`, `os.IsNotExist` errors to `ErrNotFound`, everything
else passes through unchanged. -/
def fromSambaErr : GoErr → GoErr
  | GoErr.smbRaw SmbRaw.permission => GoErr.permissionDenied
  | GoErr.smbRaw SmbRaw.notExist => GoErr.notFound
  | e => e

/-- `fromSambaErr` applied to a possibly-`nil` Go error
(`os.IsPermission nil` and `os.IsNotExist nil` are false, so `nil`
passes through as `nil`). -/
def fromSambaErrO : Option GoErr → Option GoErr
  | none => none
  | some e => some (fromSambaErr e)

/-! ## Go string primitives

The source uses `strings.Split`, `strings.Trim`, `strings.TrimLeft`,
`strings.Join`, `strings.TrimPrefix` and `strings.HasSuffix`; they are
embedded here over `List Char`. -/

/-- Go `strings.Split(s, "/")`: splits around each `'/'`; on the empty
string it returns a single empty field, never the empty list. -/
def splitSlash : List Char → List (List Char)
  | [] => [[]]
  | c :: rest =>
    if c = '/' then [] :: splitSlash rest
    else
      match splitSlash rest with
      | [] => [[c]]
      | s :: ss => (c :: s) :: ss

/-- Go `strings.Trim(s, cutset)` for a single-character cutset: removes
all leading and trailing occurrences of `t`. -/
def trimChar (t : Char) (l : List Char) : List Char :=
  ((l.dropWhile (· = t)).reverse.dropWhile (· = t)).reverse

/-- Go `strings.Join(elems, sep)` for a single-character separator. -/
def joinWith (sep : Char) : List (List Char) → List Char
  | [] => []
  | [s] => s
  | s :: rest => s ++ sep :: joinWith sep rest

/-- Go `strings.TrimLeft(s, "\\")`. -/
def trimLeftBackslash (l : List Char) : List Char :=
  l.dropWhile (· = '\\')

/-- Go `strings.HasSuffix(s, "$")`. -/
def hasDollarSuffix (l : List Char) : Bool :=
  l.getLast? = some '$'

/-! ## SMB adapter: share table and path resolution -/

/-- Abstract handle for a mounted share (a `*smb2.Share` pointer in Go);
two distinct pointers are two distinct handles. -/
abbrev Share := Nat

/-- Association-list lookup modelling Go map indexing `m[k]`
(returns the zero value `nil`, here `none`, when absent). -/
def lookupShare : List (List Char × Share) → List Char → Option Share
  | [], _ => none
  | (n, h) :: rest, k => if n = k then some h else lookupShare rest k

/-- The `Samba` backend struct: its share/mount table
(`share map[string]*smb2.Share`). `sid` identifies the adapter instance
(the Go pointer identity of the struct built by one `Init` miss); the
session handle itself never influences the functions modelled here. -/
structure Samba where
  sid : Nat := 0
  share : List (List Char × Share)
deriving DecidableEq, Repr

/-- `Samba.toSambaPath` from the source:
split the trimmed path on `/`; if the split is empty return
`ErrNotAllowed`; the first segment is the share name, the rest joined
with `\` (leading `\` trimmed) is the native path; an unmounted share
name yields `ErrNotFound`. -/
def Samba.toSambaPath (smb : Samba) (path : List Char) :
    Except GoErr (Share × List Char) :=
  let p := splitSlash (trimChar '/' path)
  match p with
  | [] => Except.error GoErr.notAllowed
  | sharename :: rest =>
    let oPath := trimLeftBackslash (joinWith '\\' rest)
    match lookupShare smb.share sharename with
    | none => Except.error GoErr.notFound
    | some sh => Except.ok (sh, oPath)

/-! ## SMB adapter: world model

The go-smb2 library and the remote SMB server are external collaborators;
they are modelled as a per-share state machine: a flat table of objects
(native path ↦ content) plus failure oracles for `Create`, `Close` and
mid-copy writes, and a listing oracle for `Open`+`Readdir` on
directories. -/

/-- The host's generic file-metadata shape (`File{FName, FType}`). -/
structure FileInfo where
  name : List Char
  ftype : String
deriving DecidableEq, Repr

structure ShareFS where
  objects : List (List Char × List Char)
  createErr : List Char → Option SmbRaw
  closeErr : List Char → Option SmbRaw
  writeErr : List Char → List Char → Option SmbRaw
  readDir : List Char → Except SmbRaw (List FileInfo)

def lookupObj : List (List Char × List Char) → List Char → Option (List Char)
  | [], _ => none
  | (n, c) :: rest, k => if n = k then some c else lookupObj rest k

/-- Create-or-truncate followed by writing `content`: the object table
afterwards maps `k` to `content`, other objects unchanged. -/
def setObj (m : List (List Char × List Char)) (k v : List Char) :
    List (List Char × List Char) :=
  match m with
  | [] => [(k, v)]
  | (n, c) :: rest => if n = k then (k, v) :: rest else (n, c) :: setObj rest k v

/-- World state: one `ShareFS` per mounted-share handle. -/
structure SmbWorld where
  fs : Share → ShareFS

def SmbWorld.upd (w : SmbWorld) (h : Share) (s : ShareFS) : SmbWorld :=
  ⟨fun h' => if h' = h then s else w.fs h'⟩

/-- `Samba.Save` from the source: resolve the path; `share.Create`; on
create failure return `fromSambaErr(err)`; `io.Copy` the content (a copy
from an empty source performs no write and cannot fail); on copy failure
close and return `fromSambaErr(err)`; otherwise return `f.Close()`
unwrapped. -/
def Samba.Save (smb : Samba) (w : SmbWorld) (path content : List Char) :
    Option GoErr × SmbWorld :=
  match smb.toSambaPath path with
  | Except.error e => (some e, w)
  | Except.ok (sh, p) =>
    let s := w.fs sh
    match s.createErr p with
    | some e => (some (fromSambaErr (GoErr.smbRaw e)), w)
    | none =>
      match if content = [] then none else s.writeErr p content with
      | some e =>
        (some (fromSambaErr (GoErr.smbRaw e)),
         w.upd sh { s with objects := setObj s.objects p [] })
      | none =>
        let w2 := w.upd sh { s with objects := setObj s.objects p content }
        match s.closeErr p with
        | some e => (some (GoErr.smbRaw e), w2)
        | none => (none, w2)

/-- `Samba.Touch` from the source: resolve the path; `share.Create`; on
create failure return `fromSambaErr(err)`; otherwise return
`fromSambaErr(f.Close())`. -/
def Samba.Touch (smb : Samba) (w : SmbWorld) (path : List Char) :
    Option GoErr × SmbWorld :=
  match smb.toSambaPath path with
  | Except.error e => (some e, w)
  | Except.ok (sh, p) =>
    let s := w.fs sh
    match s.createErr p with
    | some e => (some (fromSambaErr (GoErr.smbRaw e)), w)
    | none =>
      let w2 := w.upd sh { s with objects := setObj s.objects p [] }
      match s.closeErr p with
      | some e => (some (fromSambaErr (GoErr.smbRaw e)), w2)
      | none => (none, w2)

/-- `Samba.Cat` from the source: resolve the path (resolution failures are
returned by the call itself); `share.Open`; the opened handle is the
readable stream, an open failure is returned as `fromSambaErr(err)`. -/
def Samba.Cat (smb : Samba) (w : SmbWorld) (path : List Char) :
    Except GoErr (List Char) :=
  match smb.toSambaPath path with
  | Except.error e => Except.error e
  | Except.ok (sh, p) =>
    match lookupObj (w.fs sh).objects p with
    | some content => Except.ok content
    | none => Except.error (fromSambaErr (GoErr.smbRaw SmbRaw.notExist))

/-- `Samba.Ls` from the source. The `Bool` records whether the share's
network endpoint was consulted: listing `"/"` answers purely from the
in-memory share table. -/
def Samba.Ls (smb : Samba) (w : SmbWorld) (path : List Char) :
    Except GoErr (List FileInfo) × Bool :=
  if path = ['/'] then
    (Except.ok (smb.share.map fun e => FileInfo.mk e.1 "directory"), false)
  else
    match smb.toSambaPath path with
    | Except.error e => (Except.error e, false)
    | Except.ok (sh, p) =>
      match (w.fs sh).readDir p with
      | Except.error e => (Except.error (fromSambaErr (GoErr.smbRaw e)), true)
      | Except.ok fs => (Except.ok fs, true)

/-- Go map assignment `m[k] = v` on an association list: replace the
binding if present, else append. -/
def listSet (m : List (List Char × Share)) (k : List Char) (v : Share) :
    List (List Char × Share) :=
  match m with
  | [] => [(k, v)]
  | (n, h) :: rest => if n = k then (k, v) :: rest else (n, h) :: listSet rest k v

/-- One iteration of the share-mounting loop of `Samba.Init`: skip names
with the `$` suffix, `Mount` the rest, and record only the successful
mounts (`mount` is the library's mount call, `none` = mount failure). -/
def buildSharesStep (mount : List Char → Option Share)
    (acc : List (List Char × Share)) (name : List Char) :
    List (List Char × Share) :=
  if hasDollarSuffix name then acc
  else
    match mount name with
    | some m => listSet acc name m
    | none => acc

def buildSharesAux (mount : List Char → Option Share) :
    List (List Char) → List (List Char × Share) → List (List Char × Share)
  | [], acc => acc
  | n :: rest, acc => buildSharesAux mount rest (buildSharesStep mount acc n)

/-- The share-mounting loop of `Samba.Init` over the enumerated names,
starting from the empty table. -/
def buildShares (mount : List Char → Option Share) (names : List (List Char)) :
    List (List Char × Share) :=
  buildSharesAux mount names []

/-- The observable outcome of `Samba.Mv`: either an error with no rename
performed, or the rename delegated to one share with the two native
paths. -/
inductive MvOutcome where
  | err (e : GoErr)
  | rename (sh : Share) (fromPath toPath : List Char)
deriving DecidableEq, Repr

/-- `Samba.Mv` from the source: resolve both paths; any resolution error
is returned; if the two paths resolve to different shares return
`ErrNotImplemented` without touching either share; otherwise delegate
`Rename(fromPath, toPath)` to the common share. -/
def Samba.Mv (smb : Samba) (f t : List Char) : MvOutcome :=
  match smb.toSambaPath f with
  | Except.error e => MvOutcome.err e
  | Except.ok (fromShare, fromPath) =>
    match smb.toSambaPath t with
    | Except.error e => MvOutcome.err e
    | Except.ok (toShare, toPath) =>
      if fromShare ≠ toShare then MvOutcome.err GoErr.notImplemented
      else MvOutcome.rename fromShare fromPath toPath

/-! ## Connection parameters and the connection cache -/

/-- A Go `map[string]string` of connection parameters, as an association
list; indexing an absent key returns the zero value `""`, assignment
mutates the binding in place. -/
structure Params where
  entries : List (String × String)
deriving DecidableEq, Repr

def getEntry : List (String × String) → String → String
  | [], _ => ""
  | (n, v) :: rest, k => if n = k then v else getEntry rest k

def setEntry : List (String × String) → String → String → List (String × String)
  | [], k, v => [(k, v)]
  | (n, w) :: rest, k, v =>
    if n = k then (k, v) :: rest else (n, w) :: setEntry rest k v

def Params.get (p : Params) (k : String) : String := getEntry p.entries k

def Params.set (p : Params) (k v : String) : Params := ⟨setEntry p.entries k v⟩

def charListLe : List Char → List Char → Bool
  | [], _ => true
  | _ :: _, [] => false
  | c :: cs, d :: ds =>
    if c.toNat < d.toNat then true
    else if d.toNat < c.toNat then false
    else charListLe cs ds

/-- Total order on keys used to canonicalize parameter content. -/
def keyLe (a b : String) : Bool := charListLe a.toList b.toList

def insEntry (x : String × String) : List (String × String) → List (String × String)
  | [] => [x]
  | y :: ys => if keyLe x.1 y.1 then x :: y :: ys else y :: insEntry x ys

/-- Modelled from the spec: the `AppCache` of the host's `common` package
(not part of this repository's sources) keys entries by parameter
content — "two parameter sets are equal iff their serialized key/value
content is identical". The canonical key is the entry list sorted by
key, so two maps equal in content (in any insertion order) share one
cache key. -/
def Params.canon (p : Params) : List (String × String) :=
  p.entries.foldr insEntry []

/-- Modelled from the spec: the state of an `AppCache` (the host's
`common` package is not under this repository's sources), mapping
canonical parameter keys to cached values. Time-based expiry never fires
between the consecutive calls the claims quantify over, so it is not
modelled. -/
structure CacheState (α : Type) where
  entries : List (List (String × String) × α)
deriving DecidableEq, Repr

def cacheLookup {α : Type} : List (List (String × String) × α) →
    List (String × String) → Option α
  | [], _ => none
  | (k, v) :: rest, key => if k = key then some v else cacheLookup rest key

/-- Modelled from the spec: `AppCache.Get` — content-keyed lookup. -/
def cacheGet {α : Type} (c : CacheState α) (p : Params) : Option α :=
  cacheLookup c.entries p.canon

def cacheUpsert {α : Type} : List (List (String × String) × α) →
    List (String × String) → α → List (List (String × String) × α)
  | [], key, v => [(key, v)]
  | (k, w) :: rest, key, v =>
    if k = key then (key, v) :: rest else (k, w) :: cacheUpsert rest key v

/-- Modelled from the spec: `AppCache.Set` — insert or replace under the
content key. -/
def cacheSet {α : Type} (c : CacheState α) (p : Params) (v : α) : CacheState α :=
  ⟨cacheUpsert c.entries p.canon v⟩

/-! ## FTP adapter: initialization -/

/-- The default-filling block of `Ftp.Init` (lines 38–50): it mutates the
caller's parameter map in place. -/
def fillDefaults (p : Params) : Params :=
  let p1 := if p.get "hostname" = "" then p.set "hostname" "localhost" else p
  let p2 := if p1.get "port" = "" then p1.set "port" "21" else p1
  let p3 := if p2.get "username" = "" then p2.set "username" "anonymous" else p2
  if p3.get "username" = "anonymous" ∧ p3.get "password" = "" then
    p3.set "password" "anonymous"
  else p3

/-- Go `strconv.Atoi`: an optional sign followed by at least one decimal
digit, within the 64-bit integer range; anything else is an error. -/
def goAtoi (s : String) : Option Int :=
  let signAndDigits : Int × List Char :=
    match s.toList with
    | '+' :: rest => (1, rest)
    | '-' :: rest => (-1, rest)
    | l => (1, l)
  let ds := signAndDigits.2
  if ds = [] then none
  else if ds.all (·.isDigit) then
    let n : Nat := ds.foldl (fun acc c => acc * 10 + (c.toNat - '0'.toNat)) 0
    let v : Int := signAndDigits.1 * (n : Int)
    if v < -(2 ^ 63) ∨ 2 ^ 63 - 1 < v then none else some v
  else none

/-- The `conn` computation of `Ftp.Init` (lines 51–56): 5 unless the
`"conn"` parameter parses as a positive integer. -/
def connCount (p : Params) : Int :=
  if p.get "conn" ≠ "" then
    match goAtoi (p.get "conn") with
    | some i => if 0 < i then i else 5
    | none => 5
  else 5

/-- The fields of the `goftp.Config` built by `Ftp.Init` (the timeout is
the constant ten seconds and is not repeated here). -/
structure FtpConfig where
  user : String
  password : String
  connectionsPerHost : Int
deriving DecidableEq, Repr

/-- Go `strings.TrimPrefix(hostname, "ftp://")`. -/
def trimFtpPrefix (h : String) : String :=
  if h.toList.take 6 = "ftp://".toList then String.mk (h.toList.drop 6) else h

/-- The dial address `fmt.Sprintf("%s:%s", TrimPrefix(hostname, "ftp://"), port)`. -/
def ftpAddr (p : Params) : String :=
  trimFtpPrefix (p.get "hostname") ++ ":" ++ p.get "port"

/-- The `goftp.Config` assembled by `Ftp.Init` from the (default-filled)
parameters. -/
def ftpDialConfig (p : Params) : FtpConfig :=
  ⟨p.get "username", p.get "password", connCount p⟩

/-- Network oracle for `goftp`: whether `DialConfig` fails (with a
transport error message) and whether the `ReadDir("/")` verification
probe fails on the fresh connection. -/
structure FtpNet where
  dialErr : FtpConfig → String → Option String
  probeFails : FtpConfig → String → Bool

inductive FtpEvent where
  | dialed (cfg : FtpConfig) (addr : String)
  | closed (id : Nat)
deriving DecidableEq, Repr

instance {ε α : Type} [DecidableEq ε] [DecidableEq α] : DecidableEq (Except ε α) :=
  fun x y =>
    match x, y with
    | Except.ok a, Except.ok b =>
      if h : a = b then Decidable.isTrue (by rw [h])
      else Decidable.isFalse (by simp [h])
    | Except.error a, Except.error b =>
      if h : a = b then Decidable.isTrue (by rw [h])
      else Decidable.isFalse (by simp [h])
    | Except.ok _, Except.error _ => Decidable.isFalse (by simp)
    | Except.error _, Except.ok _ => Decidable.isFalse (by simp)

/-- Outcome of one `Ftp.Init` call: the returned adapter (identified by
the id of its underlying connection) or error, the cache afterwards, the
fresh-connection counter, and the network events that occurred. -/
structure FtpInitResult where
  result : Except GoErr Nat
  cache : CacheState Nat
  nextId : Nat
  events : List FtpEvent
deriving DecidableEq, Repr

/-- `Ftp.Init` from the source: look the raw parameters up in the cache
and return the cached adapter on a hit; otherwise fill defaults (mutating
the map), compute `conn`, dial; on dial failure return the transport
error; run the `ReadDir("/")` probe, on failure close the fresh client
and return `ErrAuthenticationFailed`; otherwise cache the new adapter
under the (mutated) parameters and return it. -/
def Ftp.Init (net : FtpNet) (cache : CacheState Nat) (nextId : Nat)
    (params : Params) : FtpInitResult :=
  match cacheGet cache params with
  | some id => ⟨Except.ok id, cache, nextId, []⟩
  | none =>
    let p := fillDefaults params
    match net.dialErr (ftpDialConfig p) (ftpAddr p) with
    | some msg => ⟨Except.error (GoErr.transport msg), cache, nextId,
                   [FtpEvent.dialed (ftpDialConfig p) (ftpAddr p)]⟩
    | none =>
      if net.probeFails (ftpDialConfig p) (ftpAddr p) then
        ⟨Except.error GoErr.authenticationFailed, cache, nextId + 1,
         [FtpEvent.dialed (ftpDialConfig p) (ftpAddr p), FtpEvent.closed nextId]⟩
      else
        ⟨Except.ok nextId, cacheSet cache p nextId, nextId + 1,
         [FtpEvent.dialed (ftpDialConfig p) (ftpAddr p)]⟩

/-! ## FTP adapter: streaming read, write, touch -/

/-- What the consumer of the pipe returned by `Ftp.Cat` observes: the
bytes written before the producer finished, and the error (if any) the
producer closed the pipe with. -/
structure FtpStream where
  chunks : List Char
  closeErr : Option GoErr
deriving DecidableEq, Repr

/-- `Ftp.Cat` from the source: return a pipe immediately (the call's own
error value is always `nil`); a background producer runs
`client.Retrieve` into the write end; on retrieve failure it closes the
pipe with `NewError("Problem", 409)`, otherwise it closes it cleanly.
`retrieve path = (bytes delivered, failure?)` is the transfer oracle. -/
def Ftp.Cat (retrieve : List Char → List Char × Option GoErr)
    (path : List Char) : FtpStream × Option GoErr :=
  let r := retrieve path
  (⟨r.1,
    match r.2 with
    | some _ => some (GoErr.newError "Problem" 409)
    | none => none⟩,
   none)

/-- Abstract `goftp.Client.Store` over a client/server state `σ`. -/
structure FtpStoreOps (σ : Type) where
  store : σ → List Char → List Char → Option GoErr × σ

/-- `Ftp.Save` from the source: `client.Store(path, file)`. -/
def Ftp.Save {σ : Type} (ops : FtpStoreOps σ) (s : σ) (path content : List Char) :
    Option GoErr × σ :=
  ops.store s path content

/-- `Ftp.Touch` from the source: `client.Store(path, strings.NewReader(""))`. -/
def Ftp.Touch {σ : Type} (ops : FtpStoreOps σ) (s : σ) (path : List Char) :
    Option GoErr × σ :=
  ops.store s path []

/-! ## SMB adapter: initialization -/

/-- Network oracle for the go-smb2 dial sequence: TCP dial failure by
address, NTLM authentication failure by (user, password, domain),
the outcome of `ListSharenames`, and the per-share `Mount` outcome. -/
structure SmbNet where
  tcpErr : String → Option String
  authErr : String → String → String → Option String
  shareNames : Except String (List (List Char))
  mount : List Char → Option Share

inductive SmbEvent where
  | tcpDialed (addr : String)
  | authed (user password domain : String)
  | listedShares
deriving DecidableEq, Repr

structure SmbInitResult where
  result : Except GoErr Samba
  cache : CacheState Samba
  nextId : Nat
  events : List SmbEvent
deriving DecidableEq, Repr

/-- `Samba.Init` from the source: look the parameters up in the cache and
return the cached adapter on a hit; otherwise dial TCP to
`host:(port or "445")`, authenticate as `username` (or `"Guest"` when
empty) with `password`/`domain`, enumerate share names, mount every name
without the `$` suffix (silently skipping mount failures), then cache the
new adapter under the unmodified parameters and return it. -/
def Samba.Init (net : SmbNet) (cache : CacheState Samba) (nextId : Nat)
    (params : Params) : SmbInitResult :=
  match cacheGet cache params with
  | some s => ⟨Except.ok s, cache, nextId, []⟩
  | none =>
    let addr := params.get "host" ++ ":" ++
      (if params.get "port" = "" then "445" else params.get "port")
    match net.tcpErr addr with
    | some msg => ⟨Except.error (GoErr.transport msg), cache, nextId,
                   [SmbEvent.tcpDialed addr]⟩
    | none =>
      let user := if params.get "username" = "" then "Guest"
                  else params.get "username"
      match net.authErr user (params.get "password") (params.get "domain") with
      | some msg => ⟨Except.error (GoErr.transport msg), cache, nextId,
                     [SmbEvent.tcpDialed addr,
                      SmbEvent.authed user (params.get "password") (params.get "domain")]⟩
      | none =>
        match net.shareNames with
        | Except.error msg =>
          ⟨Except.error (GoErr.transport msg), cache, nextId,
           [SmbEvent.tcpDialed addr,
            SmbEvent.authed user (params.get "password") (params.get "domain"),
            SmbEvent.listedShares]⟩
        | Except.ok names =>
          let s : Samba := ⟨nextId, buildShares net.mount names⟩
          ⟨Except.ok s, cacheSet cache params s, nextId + 1,
           [SmbEvent.tcpDialed addr,
            SmbEvent.authed user (params.get "password") (params.get "domain"),
            SmbEvent.listedShares]⟩

/-! ## FTP adapter: recursive delete

`Ftp.Rm` drives the goftp client's `ReadDir` / `Delete` / `Rmdir`; the
client+server pair is abstracted as `FtpRmOps` over a state `σ`, and a
well-behaved remote filesystem is modelled as a finite tree `FNode`. -/

/-- What `Ftp.Rm` reads from an `os.FileInfo`: `Name()` and `IsDir()`. -/
structure DirEntry where
  name : List Char
  isDir : Bool
deriving DecidableEq, Repr

/-- `isDirectory` from `Ftp.Rm`: the regex `\/$`, i.e. the path ends with
a slash. -/
def isDirectory (p : List Char) : Bool :=
  decide (p.getLast? = some '/')

/-- `transformError` from `Ftp.Rm`: a `goftp.Error` whose protocol code
lies in `0 < code < 300` (the success range misreported as an error by
some servers) is treated as no error; everything else passes through. -/
def transformError : Option GoErr → Option GoErr
  | none => none
  | some (GoErr.goftp c m) =>
    if c < 300 ∧ 0 < c then none else some (GoErr.goftp c m)
  | some e => some e

/-- The goftp client operations used by `Ftp.Rm`, over a client/server
state `σ`: `ReadDir` (entries plus error, entries empty on failure),
`Delete` and `Rmdir`. -/
structure FtpRmOps (σ : Type) where
  readDir : σ → List Char → List DirEntry × Option GoErr
  delete : σ → List Char → Option GoErr × σ
  rmdir : σ → List Char → Option GoErr × σ

/-- The `for` loop of `Ftp.Rm`: recursively delete each listed child
(directories with a trailing slash appended, files directly), aborting
with the original error as soon as `transformError` reports a genuine
failure. -/
def rmLoop {σ : Type} (rmRec : σ → List Char → Option GoErr × σ)
    (path : List Char) : List DirEntry → σ → Option GoErr × σ
  | [], s => (none, s)
  | e :: rest, s =>
    let p' := if e.isDir then path ++ e.name ++ ['/'] else path ++ e.name
    let r := rmRec s p'
    match transformError r.1 with
    | some _ => (r.1, r.2)
    | none => rmLoop rmRec path rest r.2

/-- `Ftp.Rm` from the source, with explicit recursion fuel (the Go code
recurses on path strings; any fuel at least the height of the subtree
being deleted makes the fuel branch unreachable): a path with a trailing
slash lists its children, deletes them through `rmLoop`, then removes the
now-empty directory; any other path is deleted directly. Errors from the
final `Rmdir`/`Delete` are filtered through `transformError`. -/
def rm {σ : Type} (ops : FtpRmOps σ) : Nat → σ → List Char → Option GoErr × σ
  | 0, s, _ => (some (GoErr.transport "recursion fuel exhausted"), s)
  | fuel + 1, s, path =>
    if isDirectory path then
      let l := ops.readDir s path
      match transformError l.2 with
      | some _ => (l.2, s)
      | none =>
        let r := rmLoop (rm ops fuel) path l.1 s
        match r.1 with
        | some e => (some e, r.2)
        | none =>
          let d := ops.rmdir r.2 path
          (transformError d.1, d.2)
    else
      let d := ops.delete s path
      (transformError d.1, d.2)

/-! ### A well-behaved FTP server over a finite filesystem tree -/

inductive FNode where
  | file (content : List Char)
  | dir (children : List (List Char × FNode))

def FNode.isDir : FNode → Bool
  | FNode.file _ => false
  | FNode.dir _ => true

mutual

def FNode.size : FNode → Nat
  | FNode.file _ => 1
  | FNode.dir cs => 1 + sizeChildren cs

def sizeChildren : List (List Char × FNode) → Nat
  | [] => 0
  | e :: rest => FNode.size e.2 + sizeChildren rest

end

def lookupChild : List (List Char × FNode) → List Char → Option FNode
  | [], _ => none
  | (n, c) :: rest, k => if n = k then some c else lookupChild rest k

def FNode.find : FNode → List (List Char) → Option FNode
  | t, [] => some t
  | FNode.dir cs, s :: rest =>
    match lookupChild cs s with
    | some c => FNode.find c rest
    | none => none
  | FNode.file _, _ :: _ => none

def eraseChild : List (List Char × FNode) → List Char → List (List Char × FNode)
  | [], _ => []
  | (n, c) :: rest, k => if n = k then rest else (n, c) :: eraseChild rest k

mutual

def FNode.setAt : FNode → List (List Char) → FNode → FNode
  | _, [], m => m
  | FNode.dir cs, s :: rest, m => FNode.dir (setAtCh cs s rest m)
  | FNode.file c, _ :: _, _ => FNode.file c

def setAtCh : List (List Char × FNode) → List Char → List (List Char) → FNode →
    List (List Char × FNode)
  | [], _, _, _ => []
  | (n, c) :: cs, s, rest, m =>
    if n = s then (n, FNode.setAt c rest m) :: cs
    else (n, c) :: setAtCh cs s rest m

end

mutual

def FNode.removeAt : FNode → List (List Char) → FNode
  | t, [] => t
  | FNode.dir cs, [n] => FNode.dir (eraseChild cs n)
  | FNode.dir cs, s :: r :: rest => FNode.dir (removeAtCh cs s (r :: rest))
  | FNode.file c, _ :: _ => FNode.file c

def removeAtCh : List (List Char × FNode) → List Char → List (List Char) →
    List (List Char × FNode)
  | [], _, _ => []
  | (n, c) :: cs, s, q =>
    if n = s then (n, FNode.removeAt c q) :: cs
    else (n, c) :: removeAtCh cs s q

end

mutual

/-- Well-formedness of the modelled remote filesystem: every directory's
child names are nonempty, slash-free and mutually distinct. -/
def FNode.namesOk : FNode → Prop
  | FNode.file _ => True
  | FNode.dir cs => childrenOk cs

def childrenOk : List (List Char × FNode) → Prop
  | [] => True
  | e :: rest =>
    (e.1 ≠ [] ∧ '/' ∉ e.1 ∧ e.1 ∉ rest.map Prod.fst) ∧
      FNode.namesOk e.2 ∧ childrenOk rest

end

mutual

/-- Boolean mirror of `FNode.namesOk`, for evaluating the
well-formedness of concrete trees. -/
def FNode.namesOkB : FNode → Bool
  | FNode.file _ => true
  | FNode.dir cs => childrenOkB cs

def childrenOkB : List (List Char × FNode) → Bool
  | [] => true
  | e :: rest =>
    (decide (e.1 ≠ []) && decide ('/' ∉ e.1) &&
      decide (e.1 ∉ rest.map Prod.fst)) &&
      FNode.namesOkB e.2 && childrenOkB rest

end

/-- Path resolution used by the server model: the path's nonempty
slash-separated segments. -/
def segsOf (p : List Char) : List (List Char) :=
  (splitSlash p).filter (fun s => decide (s ≠ []))

def entriesOf (cs : List (List Char × FNode)) : List DirEntry :=
  cs.map fun e => DirEntry.mk e.1 e.2.isDir

/-- Server `ReadDir`: list a directory's children; failure on anything
else. `succ` is the error value the server reports alongside a
*successful* operation (`none` for a well-behaved server, a success-range
`goftp` code for the misreporting servers `transformError` exists for). -/
def srvReadDir (succ : Option GoErr) (fs : FNode) (p : List Char) :
    List DirEntry × Option GoErr :=
  match fs.find (segsOf p) with
  | some (FNode.dir cs) => (entriesOf cs, succ)
  | _ => ([], some (GoErr.goftp 550 "ReadDir failed"))

/-- Server `Delete`: remove a file; failure on anything else. -/
def srvDelete (succ : Option GoErr) (fs : FNode) (p : List Char) :
    Option GoErr × FNode :=
  match fs.find (segsOf p) with
  | some (FNode.file _) => (succ, fs.removeAt (segsOf p))
  | _ => (some (GoErr.goftp 550 "Delete failed"), fs)

/-- Server `Rmdir`: remove an empty non-root directory; failure on
anything else. -/
def srvRmdir (succ : Option GoErr) (fs : FNode) (p : List Char) :
    Option GoErr × FNode :=
  match segsOf p with
  | [] => (some (GoErr.goftp 550 "Rmdir failed"), fs)
  | _ =>
    match fs.find (segsOf p) with
    | some (FNode.dir []) => (succ, fs.removeAt (segsOf p))
    | _ => (some (GoErr.goftp 550 "Rmdir failed"), fs)

def srvOps (succ : Option GoErr) : FtpRmOps FNode :=
  ⟨srvReadDir succ, srvDelete succ, srvRmdir succ⟩

/-! ## Concrete instances used by witnesses and counterexamples -/

/-- FTP network where dialing always succeeds and the probe never fails. -/
def ftpNetOk : FtpNet := ⟨fun _ _ => none, fun _ _ => false⟩

/-- FTP network where dialing succeeds but the `ReadDir("/")` probe fails. -/
def ftpNetBadProbe : FtpNet := ⟨fun _ _ => none, fun _ _ => true⟩

/-- SMB network where everything succeeds, two shares `pub` and `adm$`
are advertised, and every mount succeeds. -/
def smbNetOk : SmbNet :=
  ⟨fun _ => none, fun _ _ _ => none,
   Except.ok ["pub".toList, "adm$".toList], fun _ => some 7⟩

/-- A share filesystem whose `Close` always reports an OS permission
error, with no objects and failing directory listings. -/
def shareFsClosePerm : ShareFS :=
  ⟨[], fun _ => none, fun _ => some SmbRaw.permission, fun _ _ => none,
   fun _ => Except.error (SmbRaw.other "listing failed")⟩

def worldClosePerm : SmbWorld := ⟨fun _ => shareFsClosePerm⟩

/-- A share filesystem on which every operation succeeds. -/
def shareFsOk : ShareFS :=
  ⟨[("f.txt".toList, "hello".toList)], fun _ => none, fun _ => none,
   fun _ _ => none, fun _ => Except.ok []⟩

def worldOk : SmbWorld := ⟨fun _ => shareFsOk⟩

/-- Example remote FTP tree: a directory `d` holding a file `a` and a
subdirectory `s` with a file `b`, next to a file `keep`. -/
def fsEx : FNode :=
  FNode.dir
    [("d".toList,
      FNode.dir
        [("a".toList, FNode.file "x".toList),
         ("s".toList, FNode.dir [("b".toList, FNode.file "y".toList)])]),
     ("keep".toList, FNode.file "z".toList)]

/-- A client/server (state: a counter, unused) whose listings report two
files `a`, `b`, whose `Delete` always fails with the FTP permission-denied
code 550, and whose `Rmdir` succeeds. -/
def permDeniedOps : FtpRmOps Nat :=
  ⟨fun _ _ => ([DirEntry.mk "a".toList false, DirEntry.mk "b".toList false], none),
   fun s _ => (some (GoErr.goftp 550 "denied"), s),
   fun s _ => (none, s)⟩

/-! ## String lemmas -/

theorem splitSlash_ne_nil (l : List Char) : splitSlash l ≠ [] := by
  cases l with
  | nil => simp [splitSlash]
  | cons c rest =>
    simp only [splitSlash]
    split
    · simp
    · split <;> simp

theorem splitSlash_append_slash :
    ∀ l m : List Char, splitSlash (l ++ '/' :: m) = splitSlash l ++ splitSlash m := by
  intro l m
  induction l with
  | nil => simp [splitSlash]
  | cons c rest ih =>
    by_cases hc : c = '/'
    · subst hc
      simp [splitSlash, ih]
    · have hne := splitSlash_ne_nil rest
      cases hrest : splitSlash rest with
      | nil => exact absurd hrest hne
      | cons s ss =>
        simp only [List.cons_append, splitSlash, if_neg hc, List.append_eq, ih, hrest]

theorem splitSlash_no_slash : ∀ l : List Char, '/' ∉ l → splitSlash l = [l] := by
  intro l hl
  induction l with
  | nil => rfl
  | cons c rest ih =>
    have hc : ¬c = '/' := fun h => hl (h ▸ List.mem_cons_self c rest)
    have hrest : '/' ∉ rest := fun h => hl (List.mem_cons_of_mem c h)
    simp [splitSlash, hc, ih hrest]

theorem dropWhileNe_of_head (p : Char → Bool) :
    ∀ l : List Char, (∀ c, l.head? = some c → p c = false) → l.dropWhile p = l := by
  intro l h
  cases l with
  | nil => rfl
  | cons c rest => simp [List.dropWhile, h c rfl]

/-- A nonempty slash-free string is untouched by `strings.Trim(s, "/")`
as long as it is flanked by slash-free material. -/
theorem trimChar_eq_self (l : List Char) (hhd : ∀ c, l.head? = some c → c ≠ '/')
    (hlast : ∀ c, l.getLast? = some c → c ≠ '/') : trimChar '/' l = l := by
  unfold trimChar
  rw [dropWhileNe_of_head _ l (fun c hc => by simp [hhd c hc])]
  rw [dropWhileNe_of_head _ l.reverse (fun c hc => by
    rw [List.head?_reverse] at hc
    simp [hlast c hc])]
  exact List.reverse_reverse l

/-! ## C2: SMB path resolution -/

/-- C2: SMB path resolution. The code handles the three cases of the
claim as follows: an unknown first segment yields `ErrNotFound`, and
`"shareA/sub/file.txt"` with `shareA` mounted yields the mounted handle
and native path `sub\file.txt`; but the empty path also yields
`ErrNotFound` — not `ErrNotAllowed` as the claim states — because
`strings.Split` never produces the empty slice the `ErrNotAllowed`
branch tests for. -/
theorem c2_smb_path_resolution :
    (∀ (sid : Nat) (tbl : List (List Char × Share)),
      lookupShare tbl [] = none →
      (Samba.mk sid tbl).toSambaPath [] = Except.error GoErr.notFound ∧
        (Samba.mk sid tbl).toSambaPath [] ≠ Except.error GoErr.notAllowed) ∧
    (∀ (smb : Samba) (path s : List Char) (rest : List (List Char)),
      splitSlash (trimChar '/' path) = s :: rest →
      lookupShare smb.share s = none →
      smb.toSambaPath path = Except.error GoErr.notFound) ∧
    (∀ (sid : Nat) (tbl : List (List Char × Share)) (h : Share) (name : List Char),
      name ≠ [] → '/' ∉ name → lookupShare tbl name = some h →
      (Samba.mk sid tbl).toSambaPath (name ++ "/sub/file.txt".toList) =
        Except.ok (h, "sub\\file.txt".toList)) := by
  refine ⟨?_, ?_, ?_⟩
  · intro sid tbl hl
    constructor
    · simp [Samba.toSambaPath, trimChar, splitSlash, joinWith, trimLeftBackslash, hl]
    · simp [Samba.toSambaPath, trimChar, splitSlash, joinWith, trimLeftBackslash, hl]
  · intro smb path s rest hsplit hl
    unfold Samba.toSambaPath
    rw [hsplit]
    simp [hl]
  · intro sid tbl h name hne hns hl
    have hpath : name ++ "/sub/file.txt".toList = name ++ '/' :: "sub/file.txt".toList := rfl
    have htrim : trimChar '/' (name ++ '/' :: "sub/file.txt".toList) =
        name ++ '/' :: "sub/file.txt".toList := by
      apply trimChar_eq_self
      · intro c hc
        rw [List.head?_append_of_ne_nil _ hne] at hc
        intro hcc
        subst hcc
        exact hns (List.mem_of_mem_head? hc)
      · intro c hc
        rw [List.getLast?_append_of_ne_nil _ (by simp)] at hc
        simp [List.getLast?_cons_cons] at hc
        subst hc
        decide
    have hsplit : splitSlash (name ++ '/' :: "sub/file.txt".toList) =
        [name] ++ ["sub".toList, "file.txt".toList] := by
      rw [splitSlash_append_slash, splitSlash_no_slash name hns]
      rfl
    unfold Samba.toSambaPath
    rw [hpath, htrim, hsplit]
    simp [hl]
    rfl

/-- Witness for `c2_smb_path_resolution` at the one-share table
`shareA ↦ 0`: the empty path resolves to `ErrNotFound`, the unknown
share `"unknown"` resolves to `ErrNotFound`, and `"shareA/sub/file.txt"`
resolves to share handle 0 with native path `sub\file.txt`. -/
theorem c2_smb_path_resolution_witness :
    (Samba.mk 0 [("shareA".toList, 0)]).toSambaPath [] =
        Except.error GoErr.notFound ∧
    (Samba.mk 0 [("shareA".toList, 0)]).toSambaPath "unknown/x".toList =
        Except.error GoErr.notFound ∧
    (Samba.mk 0 [("shareA".toList, 0)]).toSambaPath "shareA/sub/file.txt".toList =
        Except.ok (0, "sub\\file.txt".toList) := by
  refine ⟨(c2_smb_path_resolution.1 0 [("shareA".toList, 0)] (by decide)).1,
    c2_smb_path_resolution.2.1 (Samba.mk 0 [("shareA".toList, 0)])
      "unknown/x".toList "unknown".toList ["x".toList] (by decide) (by decide),
    ?_⟩
  have := c2_smb_path_resolution.2.2 0 [("shareA".toList, 0)] 0 "shareA".toList
    (by decide) (by decide) (by decide)
  exact this

/-! ## C7: cross-share rename -/

/-- C7: a rename whose endpoints resolve to two different shares returns
`ErrNotImplemented` with no rename action delegated to either share;
when both resolve to the same share the rename is delegated to it with
the two native paths. -/
theorem c7_cross_share_rename (smb : Samba) (f t : List Char)
    (s₁ s₂ : Share) (p₁ p₂ : List Char)
    (hf : smb.toSambaPath f = Except.ok (s₁, p₁))
    (ht : smb.toSambaPath t = Except.ok (s₂, p₂)) :
    (s₁ ≠ s₂ → smb.Mv f t = MvOutcome.err GoErr.notImplemented) ∧
    (s₁ = s₂ → smb.Mv f t = MvOutcome.rename s₁ p₁ p₂) := by
  unfold Samba.Mv
  rw [hf, ht]
  constructor
  · intro h
    simp [h]
  · intro h
    simp [h]

/-- Witness for `c7_cross_share_rename` on the two-share table
`a ↦ 0, b ↦ 1`: the cross-share rename `a/x → b/y` yields
`ErrNotImplemented`; the same-share rename `a/x → a/y` delegates
`Rename("x", "y")` to share 0. -/
theorem c7_cross_share_rename_witness :
    (Samba.mk 0 [("a".toList, 0), ("b".toList, 1)]).Mv "a/x".toList "b/y".toList =
        MvOutcome.err GoErr.notImplemented ∧
    (Samba.mk 0 [("a".toList, 0), ("b".toList, 1)]).Mv "a/x".toList "a/y".toList =
        MvOutcome.rename 0 "x".toList "y".toList := by
  constructor
  · exact (c7_cross_share_rename (Samba.mk 0 [("a".toList, 0), ("b".toList, 1)])
      "a/x".toList "b/y".toList 0 1 "x".toList "y".toList (by decide) (by decide)).1
      (by decide)
  · exact (c7_cross_share_rename (Samba.mk 0 [("a".toList, 0), ("b".toList, 1)])
      "a/x".toList "a/y".toList 0 0 "x".toList "y".toList (by decide) (by decide)).2
      rfl

/-! ## C9: touch as a zero-length write -/

theorem fromSambaErr_idem (e : GoErr) :
    fromSambaErr (fromSambaErr e) = fromSambaErr e := by
  cases e with
  | smbRaw r => cases r <;> rfl
  | _ => rfl

/-- Path resolution only ever fails with the two sentinel errors. -/
theorem toSambaPath_error_cases (smb : Samba) (path : List Char) (e : GoErr)
    (h : smb.toSambaPath path = Except.error e) :
    e = GoErr.notAllowed ∨ e = GoErr.notFound := by
  unfold Samba.toSambaPath at h
  cases hsplit : splitSlash (trimChar '/' path) with
  | nil =>
    rw [hsplit] at h
    simp at h
    exact Or.inl h.symm
  | cons s rest =>
    rw [hsplit] at h
    cases hl : lookupShare smb.share s with
    | none =>
      simp [hl] at h
      exact Or.inr h.symm
    | some sh => simp [hl] at h

/-- C9 (amended): FTP `Touch` is literally `Save` of an empty reader;
SMB `Touch` produces the same world state as `Save` with empty content
and its result is `Save`'s result normalized through `fromSambaErr` —
so the two coincide except that a close-time OS-classified error is
returned normalized by `Touch` and raw by `Save`. -/
theorem c9_touch_is_empty_save :
    (∀ {σ : Type} (ops : FtpStoreOps σ) (s : σ) (path : List Char),
      Ftp.Touch ops s path = Ftp.Save ops s path []) ∧
    (∀ (smb : Samba) (w : SmbWorld) (path : List Char),
      Samba.Touch smb w path =
        (fromSambaErrO (Samba.Save smb w path []).1,
         (Samba.Save smb w path []).2)) := by
  constructor
  · intro σ ops s path
    rfl
  · intro smb w path
    unfold Samba.Touch Samba.Save
    cases hres : smb.toSambaPath path with
    | error e =>
      rcases toSambaPath_error_cases smb path e hres with h | h <;>
        simp [h, fromSambaErrO, fromSambaErr]
    | ok shp =>
      obtain ⟨sh, p⟩ := shp
      simp only
      cases hc : (w.fs sh).createErr p with
      | some e =>
        simp [fromSambaErrO, fromSambaErr_idem]
      | none =>
        simp only [reduceIte]
        cases hcl : (w.fs sh).closeErr p with
        | some e => simp [fromSambaErrO]
        | none => simp [fromSambaErrO]

/-- C9 counterexample: with a share whose `Close` reports an OS
permission error, `Touch` on `s/a.txt` returns the normalized
`ErrPermissionDenied` while `Save` with empty content returns the raw
library error — the two calls do not return equal results. -/
theorem c9_touch_save_not_identical :
    (Samba.Touch (Samba.mk 0 [("s".toList, 0)]) worldClosePerm "s/a.txt".toList).1 =
        some GoErr.permissionDenied ∧
    (Samba.Save (Samba.mk 0 [("s".toList, 0)]) worldClosePerm "s/a.txt".toList []).1 =
        some (GoErr.smbRaw SmbRaw.permission) ∧
    some GoErr.permissionDenied ≠ some (GoErr.smbRaw SmbRaw.permission) := by
  exact ⟨rfl, rfl, by decide⟩

/-! ## C8: streaming reads -/

/-- C8 (amended): the FTP read call always returns a stream with a `nil`
error value; a transfer failure surfaces as the `NewError("Problem",
409)` the producer closes the pipe with, while a clean transfer delivers
exactly the remote bytes and a clean close. For the SMB adapter a
path-resolution failure is returned by the read call itself. -/
theorem c8_streaming_read :
    (∀ (retrieve : List Char → List Char × Option GoErr) (path : List Char),
      (Ftp.Cat retrieve path).2 = none) ∧
    (∀ (retrieve : List Char → List Char × Option GoErr) (path : List Char)
      (e : GoErr), (retrieve path).2 = some e →
      (Ftp.Cat retrieve path).1 =
        FtpStream.mk (retrieve path).1 (some (GoErr.newError "Problem" 409))) ∧
    (∀ (retrieve : List Char → List Char × Option GoErr) (path : List Char),
      (retrieve path).2 = none →
      (Ftp.Cat retrieve path).1 = FtpStream.mk (retrieve path).1 none) ∧
    (∀ (smb : Samba) (w : SmbWorld) (path : List Char) (e : GoErr),
      smb.toSambaPath path = Except.error e →
      Samba.Cat smb w path = Except.error e) := by
  refine ⟨fun retrieve path => rfl, ?_, ?_, ?_⟩
  · intro retrieve path e h
    simp [Ftp.Cat, h]
  · intro retrieve path h
    simp [Ftp.Cat, h]
  · intro smb w path e h
    unfold Samba.Cat
    rw [h]

/-- Witness for `c8_streaming_read`: a retrieve oracle that delivers
`"he"` and then fails produces a stream carrying those bytes and the 409
close error with a `nil` call-level error; a clean retrieve of `"hello"`
produces the full bytes with a clean close; `Samba.Cat` on the unknown
share `share/x` returns `ErrNotFound` from the call itself. -/
theorem c8_streaming_read_witness :
    (Ftp.Cat (fun _ => ("he".toList, some (GoErr.transport "reset"))) "f".toList).2
        = none ∧
    (Ftp.Cat (fun _ => ("he".toList, some (GoErr.transport "reset"))) "f".toList).1
        = FtpStream.mk "he".toList (some (GoErr.newError "Problem" 409)) ∧
    (Ftp.Cat (fun _ => ("hello".toList, none)) "f".toList).1
        = FtpStream.mk "hello".toList none ∧
    Samba.Cat (Samba.mk 0 []) worldOk "share/x".toList =
        Except.error GoErr.notFound := by
  refine ⟨c8_streaming_read.1 _ _, c8_streaming_read.2.1 _ "f".toList
    (GoErr.transport "reset") rfl, c8_streaming_read.2.2.1 _ "f".toList rfl,
    c8_streaming_read.2.2.2 (Samba.mk 0 []) worldOk "share/x".toList
    GoErr.notFound (by decide)⟩

/-- C8 counterexample: the claim's universal form fails on the SMB
adapter — reading `share/x` with no share mounted returns the error
`ErrNotFound` as the return value of the read call itself, not a
stream. -/
theorem c8_smb_cat_errors_at_call :
    Samba.Cat (Samba.mk 0 []) worldClosePerm "share/x".toList =
      Except.error GoErr.notFound := by
  decide

/-! ## C10: SMB root listing and the share table -/

theorem listSet_mem {m : List (List Char × Share)} {k : List Char} {v : Share}
    {e : List Char × Share} (h : e ∈ listSet m k v) : e ∈ m ∨ e = (k, v) := by
  induction m with
  | nil =>
    simp [listSet] at h
    exact Or.inr h
  | cons x rest ih =>
    obtain ⟨n, hh⟩ := x
    by_cases hk : n = k
    · simp [listSet, hk] at h
      rcases h with h | h
      · exact Or.inr h
      · exact Or.inl (List.mem_cons_of_mem _ h)
    · simp [listSet, hk] at h
      rcases h with h | h
      · exact Or.inl (by simp [h])
      · rcases ih h with h' | h'
        · exact Or.inl (List.mem_cons_of_mem _ h')
        · exact Or.inr h'

theorem listSet_self_mem (m : List (List Char × Share)) (k : List Char) (v : Share) :
    (k, v) ∈ listSet m k v := by
  induction m with
  | nil => simp [listSet]
  | cons x rest ih =>
    obtain ⟨n, h⟩ := x
    by_cases hk : n = k
    · simp [listSet, hk]
    · simp [listSet, hk]
      exact Or.inr ih

theorem listSet_mem_of_ne {m : List (List Char × Share)} {k : List Char} {v : Share}
    {e : List Char × Share} (h : e ∈ m) (hne : e.1 ≠ k) : e ∈ listSet m k v := by
  induction m with
  | nil => simp at h
  | cons x rest ih =>
    obtain ⟨n, hh⟩ := x
    rcases List.mem_cons.1 h with h' | h'
    · subst h'
      simp only [listSet]
      rw [if_neg (by simpa using hne)]
      exact List.mem_cons_self _ _
    · by_cases hk : n = k
      · simp [listSet, hk]
        exact Or.inr (by simpa using h')
      · simp [listSet, hk]
        exact Or.inr (by simpa using ih h')

theorem buildSharesAux_sound (mount : List Char → Option Share) :
    ∀ (names : List (List Char)) (acc : List (List Char × Share))
      (e : List Char × Share), e ∈ buildSharesAux mount names acc →
      e ∈ acc ∨ (e.1 ∈ names ∧ hasDollarSuffix e.1 = false ∧ mount e.1 = some e.2) := by
  intro names
  induction names with
  | nil =>
    intro acc e h
    exact Or.inl h
  | cons n rest ih =>
    intro acc e h
    rcases ih _ e h with h' | h'
    · unfold buildSharesStep at h'
      by_cases hd : hasDollarSuffix n
      · rw [if_pos hd] at h'
        exact Or.inl h'
      · rw [if_neg hd] at h'
        cases hm : mount n with
        | some m =>
          rw [hm] at h'
          rcases listSet_mem h' with h'' | h''
          · exact Or.inl h''
          · refine Or.inr ⟨?_, ?_, ?_⟩
            · rw [h'']
              exact List.mem_cons_self _ _
            · rw [h'']
              simpa using hd
            · rw [h'']
              simpa using hm
        | none =>
          rw [hm] at h'
          exact Or.inl h'
    · exact Or.inr ⟨List.mem_cons_of_mem _ h'.1, h'.2⟩

theorem buildSharesAux_complete (mount : List Char → Option Share) :
    ∀ (names : List (List Char)) (acc : List (List Char × Share))
      (n : List Char) (h : Share), mount n = some h →
      (n, h) ∈ acc ∨ (n ∈ names ∧ hasDollarSuffix n = false) →
      (n, h) ∈ buildSharesAux mount names acc := by
  intro names
  induction names with
  | nil =>
    intro acc n h _ hmem
    rcases hmem with hmem | hmem
    · exact hmem
    · simp at hmem
  | cons m rest ih =>
    intro acc n h hm hmem
    rcases hmem with hmem | ⟨hmemn, hd⟩
    · refine ih _ n h hm (Or.inl ?_)
      unfold buildSharesStep
      by_cases hdm : hasDollarSuffix m
      · rw [if_pos hdm]
        exact hmem
      · rw [if_neg hdm]
        cases hmm : mount m with
        | some v =>
          by_cases hnm : n = m
          · subst hnm
            rw [hm] at hmm
            injection hmm with hv
            subst hv
            exact listSet_self_mem _ _ _
          · exact listSet_mem_of_ne hmem (by simpa using fun hh => hnm hh)
        | none => exact hmem
    · rcases List.mem_cons.1 hmemn with hnm | hnm
      · subst hnm
        refine ih _ n h hm (Or.inl ?_)
        unfold buildSharesStep
        rw [if_neg (by simp [hd]), hm]
        exact listSet_self_mem _ _ _
      · exact ih _ n h hm (Or.inr ⟨hnm, hd⟩)

/-- C10: listing `"/"` on the SMB adapter never fails, performs no
network round-trip, and returns exactly one directory-typed entry per
entry of the in-memory share table; and the share table built at session
establishment contains exactly the enumerated share names that do not end
in `$` and whose mount succeeded (failed mounts and `$`-suffixed names
are absent); a fresh successful `Samba.Init` returns an adapter whose
table is built that way from the enumerated names. -/
theorem c10_root_listing_and_share_table :
    (∀ (smb : Samba) (w : SmbWorld),
      Samba.Ls smb w ['/'] =
        (Except.ok (smb.share.map fun e => FileInfo.mk e.1 "directory"), false)) ∧
    (∀ (mount : List Char → Option Share) (names : List (List Char))
      (n : List Char) (h : Share), (n, h) ∈ buildShares mount names →
      n ∈ names ∧ hasDollarSuffix n = false ∧ mount n = some h) ∧
    (∀ (mount : List Char → Option Share) (names : List (List Char))
      (n : List Char) (h : Share), n ∈ names → hasDollarSuffix n = false →
      mount n = some h → (n, h) ∈ buildShares mount names) ∧
    (∀ (net : SmbNet) (cache : CacheState Samba) (nextId : Nat) (params : Params)
      (names : List (List Char)),
      cacheGet cache params = none →
      net.tcpErr (params.get "host" ++ ":" ++
        (if params.get "port" = "" then "445" else params.get "port")) = none →
      net.authErr (if params.get "username" = "" then "Guest"
          else params.get "username") (params.get "password")
        (params.get "domain") = none →
      net.shareNames = Except.ok names →
      (Samba.Init net cache nextId params).result =
        Except.ok (Samba.mk nextId (buildShares net.mount names))) := by
  refine ⟨?_, ?_, ?_, ?_⟩
  · intro smb w
    rfl
  · intro mount names n h hmem
    rcases buildSharesAux_sound mount names [] (n, h) hmem with h' | h'
    · simp at h'
    · exact h'
  · intro mount names n h hmem hd hm
    exact buildSharesAux_complete mount names [] n h hm (Or.inr ⟨hmem, hd⟩)
  · intro net cache nextId params names hmiss htcp hauth hnames
    simp [Samba.Init, hmiss, htcp, hauth, hnames]

/-- Witness for `c10_root_listing_and_share_table`: over the network
`smbNetOk` (shares `pub` and `adm$`, all mounts succeed), a fresh `Init`
with empty parameters yields the table containing exactly `pub ↦ 7`
(the administrative share `adm$` is excluded), and listing `"/"` on that
adapter returns the single directory entry `pub` with no network
round-trip. -/
theorem c10_root_listing_and_share_table_witness :
    (Samba.Init smbNetOk ⟨[]⟩ 0 ⟨[]⟩).result =
        Except.ok (Samba.mk 0 (buildShares smbNetOk.mount
          ["pub".toList, "adm$".toList])) ∧
    ("pub".toList, 7) ∈ buildShares smbNetOk.mount
        ["pub".toList, "adm$".toList] ∧
    (∀ h : Share, ("adm$".toList, h) ∈ buildShares smbNetOk.mount
        ["pub".toList, "adm$".toList] → False) ∧
    Samba.Ls (Samba.mk 0 [("pub".toList, 7)]) worldOk ['/'] =
        (Except.ok [FileInfo.mk "pub".toList "directory"], false) := by
  refine ⟨c10_root_listing_and_share_table.2.2.2 smbNetOk ⟨[]⟩ 0 ⟨[]⟩
      ["pub".toList, "adm$".toList] rfl rfl rfl rfl, ?_, ?_, ?_⟩
  · exact c10_root_listing_and_share_table.2.2.1 smbNetOk.mount
      ["pub".toList, "adm$".toList] "pub".toList 7 (by decide) (by decide) rfl
  · intro h hmem
    have := (c10_root_listing_and_share_table.2.1 smbNetOk.mount
      ["pub".toList, "adm$".toList] "adm$".toList h hmem).2.1
    simp [hasDollarSuffix] at this
  · exact c10_root_listing_and_share_table.1 (Samba.mk 0 [("pub".toList, 7)]) worldOk

/-! ## C6: FTP default parameters -/

/-- C6: initializing with an empty parameter map fills host
`localhost`, port `21`, username `anonymous`, password `anonymous` and
connection count 5, and the connection (when the cache misses) is dialed
with exactly that configuration and address; parameters already present
are left unchanged and a positive-integer `conn` is honored. -/
theorem c6_ftp_default_parameters :
    fillDefaults ⟨[]⟩ = ⟨[("hostname", "localhost"), ("port", "21"),
        ("username", "anonymous"), ("password", "anonymous")]⟩ ∧
    connCount (fillDefaults ⟨[]⟩) = 5 ∧
    (∀ (net : FtpNet) (cache : CacheState Nat) (nextId : Nat),
      cacheGet cache ⟨[]⟩ = none →
      (Ftp.Init net cache nextId ⟨[]⟩).events.head? =
        some (FtpEvent.dialed ⟨"anonymous", "anonymous", 5⟩ "localhost:21")) ∧
    (∀ p : Params, p.get "hostname" ≠ "" → p.get "port" ≠ "" →
      p.get "username" ≠ "" →
      (p.get "username" = "anonymous" → p.get "password" ≠ "") →
      fillDefaults p = p) ∧
    (∀ (p : Params) (i : Int), goAtoi (p.get "conn") = some i → 0 < i →
      connCount p = i) := by
  refine ⟨by decide, by decide, ?_, ?_, ?_⟩
  · intro net cache nextId hmiss
    have hcfg : ftpDialConfig (fillDefaults ⟨[]⟩) = ⟨"anonymous", "anonymous", 5⟩ := by
      decide
    have haddr : ftpAddr (fillDefaults ⟨[]⟩) = "localhost:21" := by decide
    unfold Ftp.Init
    simp only [hmiss, hcfg, haddr]
    cases net.dialErr ⟨"anonymous", "anonymous", 5⟩ "localhost:21" with
    | some msg => rfl
    | none =>
      by_cases hp : net.probeFails ⟨"anonymous", "anonymous", 5⟩ "localhost:21" <;>
        simp [hp]
  · intro p h1 h2 h3 h4
    have h5 : ¬(p.get "username" = "anonymous" ∧ p.get "password" = "") := by
      rintro ⟨hu, hpw⟩
      exact h4 hu hpw
    simp only [fillDefaults]
    rw [if_neg h1, if_neg h2, if_neg h3, if_neg h5]
  · intro p i hi hpos
    have hne : p.get "conn" ≠ "" := by
      intro h
      have h0 : goAtoi "" = none := by decide
      rw [h, h0] at hi
      exact Option.noConfusion hi
    unfold connCount
    rw [if_pos hne, hi]
    simp [hpos]

/-- Witness for `c6_ftp_default_parameters`: a fresh `Init` with empty
parameters dials `localhost:21` as `anonymous`/`anonymous` with 5
connections; a fully specified map is left unchanged; `conn = "7"`
yields connection count 7. -/
theorem c6_ftp_default_parameters_witness :
    (Ftp.Init ftpNetOk ⟨[]⟩ 0 ⟨[]⟩).events.head? =
        some (FtpEvent.dialed ⟨"anonymous", "anonymous", 5⟩ "localhost:21") ∧
    fillDefaults ⟨[("hostname", "h"), ("port", "2121"), ("username", "u"),
        ("password", "x")]⟩ =
      ⟨[("hostname", "h"), ("port", "2121"), ("username", "u"),
        ("password", "x")]⟩ ∧
    connCount ⟨[("conn", "7")]⟩ = 7 := by
  refine ⟨c6_ftp_default_parameters.2.2.1 ftpNetOk ⟨[]⟩ 0 rfl,
    c6_ftp_default_parameters.2.2.2.1
      ⟨[("hostname", "h"), ("port", "2121"), ("username", "u"),
        ("password", "x")]⟩ (by decide) (by decide) (by decide) (by decide),
    c6_ftp_default_parameters.2.2.2.2 ⟨[("conn", "7")]⟩ 7 (by decide) (by decide)⟩

/-! ## C5: FTP probe failure -/

/-- C5: when the dial succeeds but the `ReadDir("/")` verification probe
fails, `Ftp.Init` closes the fresh session and returns
`ErrAuthenticationFailed` (not a transport error), and in every failing
initialization the cache is left untouched. -/
theorem c5_ftp_probe_failure :
    (∀ (net : FtpNet) (cache : CacheState Nat) (nextId : Nat) (params : Params),
      cacheGet cache params = none →
      net.dialErr (ftpDialConfig (fillDefaults params))
          (ftpAddr (fillDefaults params)) = none →
      net.probeFails (ftpDialConfig (fillDefaults params))
          (ftpAddr (fillDefaults params)) = true →
      Ftp.Init net cache nextId params =
        ⟨Except.error GoErr.authenticationFailed, cache, nextId + 1,
         [FtpEvent.dialed (ftpDialConfig (fillDefaults params))
            (ftpAddr (fillDefaults params)),
          FtpEvent.closed nextId]⟩) ∧
    (∀ (net : FtpNet) (cache : CacheState Nat) (nextId : Nat) (params : Params)
      (e : GoErr), (Ftp.Init net cache nextId params).result = Except.error e →
      (Ftp.Init net cache nextId params).cache = cache) := by
  constructor
  · intro net cache nextId params hmiss hdial hprobe
    unfold Ftp.Init
    simp only [hmiss, hdial, hprobe]
    rfl
  · intro net cache nextId params e hres
    cases hget : cacheGet cache params with
    | some id =>
      unfold Ftp.Init at hres
      simp only [hget] at hres
      simp at hres
    | none =>
      cases hdial : net.dialErr (ftpDialConfig (fillDefaults params))
          (ftpAddr (fillDefaults params)) with
      | some msg =>
        unfold Ftp.Init
        simp only [hget, hdial]
      | none =>
        by_cases hp : net.probeFails (ftpDialConfig (fillDefaults params))
            (ftpAddr (fillDefaults params))
        · unfold Ftp.Init
          simp only [hget, hdial]
          simp [hp]
        · unfold Ftp.Init at hres
          simp only [hget, hdial] at hres
          simp [hp] at hres

/-- Witness for `c5_ftp_probe_failure` on `ftpNetBadProbe` (dial
succeeds, probe fails) with empty parameters: the call returns
`ErrAuthenticationFailed`, closes connection 0 and caches nothing. -/
theorem c5_ftp_probe_failure_witness :
    Ftp.Init ftpNetBadProbe ⟨[]⟩ 0 ⟨[]⟩ =
      ⟨Except.error GoErr.authenticationFailed, ⟨[]⟩, 1,
       [FtpEvent.dialed (ftpDialConfig (fillDefaults ⟨[]⟩))
          (ftpAddr (fillDefaults ⟨[]⟩)), FtpEvent.closed 0]⟩ ∧
    (Ftp.Init ftpNetBadProbe ⟨[]⟩ 0 ⟨[]⟩).cache = ⟨[]⟩ := by
  constructor
  · exact c5_ftp_probe_failure.1 ftpNetBadProbe ⟨[]⟩ 0 ⟨[]⟩ rfl rfl rfl
  · exact c5_ftp_probe_failure.2 ftpNetBadProbe ⟨[]⟩ 0 ⟨[]⟩
      GoErr.authenticationFailed rfl

/-! ## C1: cached initialization -/

theorem cacheLookup_upsert_self {α : Type} :
    ∀ (m : List (List (String × String) × α)) (key : List (String × String))
      (v : α), cacheLookup (cacheUpsert m key v) key = some v := by
  intro m key v
  induction m with
  | nil => simp [cacheUpsert, cacheLookup]
  | cons e rest ih =>
    obtain ⟨k, w⟩ := e
    by_cases hk : k = key
    · simp [cacheUpsert, hk, cacheLookup]
    · simp [cacheUpsert, hk, cacheLookup, ih]

/-- C1 (amended): with content-equal parameter maps, a second
initialization returns the first call's cached adapter with no network
events and no cache change — for the FTP adapter under the additional
hypothesis that default-filling leaves the first call's map unchanged
(the code looks the cache up under the pre-default map but inserts under
the post-default mutated map), and for the SMB adapter unconditionally
(its parameters are never mutated). -/
theorem c1_second_init_returns_cached :
    (∀ (net : FtpNet) (cache : CacheState Nat) (nextId : Nat) (p₁ p₂ : Params)
      (a : Nat), fillDefaults p₁ = p₁ → p₁.canon = p₂.canon →
      (Ftp.Init net cache nextId p₁).result = Except.ok a →
      Ftp.Init net (Ftp.Init net cache nextId p₁).cache
          (Ftp.Init net cache nextId p₁).nextId p₂ =
        ⟨Except.ok a, (Ftp.Init net cache nextId p₁).cache,
         (Ftp.Init net cache nextId p₁).nextId, []⟩) ∧
    (∀ (net : SmbNet) (cache : CacheState Samba) (nextId : Nat) (p₁ p₂ : Params)
      (s : Samba), p₁.canon = p₂.canon →
      (Samba.Init net cache nextId p₁).result = Except.ok s →
      Samba.Init net (Samba.Init net cache nextId p₁).cache
          (Samba.Init net cache nextId p₁).nextId p₂ =
        ⟨Except.ok s, (Samba.Init net cache nextId p₁).cache,
         (Samba.Init net cache nextId p₁).nextId, []⟩) := by
  constructor
  · intro net cache nextId p₁ p₂ a hfill hcanon hres
    have hget2 : ∀ c : CacheState Nat, cacheGet c p₂ = cacheGet c p₁ := by
      intro c
      unfold cacheGet
      rw [hcanon]
    cases hget : cacheGet cache p₁ with
    | some id =>
      have hfirst : Ftp.Init net cache nextId p₁ =
          ⟨Except.ok id, cache, nextId, []⟩ := by
        unfold Ftp.Init
        simp only [hget]
      rw [hfirst] at hres
      simp at hres
      subst hres
      rw [hfirst]
      unfold Ftp.Init
      simp only [hget2, hget]
    | none =>
      cases hdial : net.dialErr (ftpDialConfig (fillDefaults p₁))
          (ftpAddr (fillDefaults p₁)) with
      | some msg =>
        have hfirst : Ftp.Init net cache nextId p₁ =
            ⟨Except.error (GoErr.transport msg), cache, nextId,
             [FtpEvent.dialed (ftpDialConfig (fillDefaults p₁))
                (ftpAddr (fillDefaults p₁))]⟩ := by
          unfold Ftp.Init
          simp only [hget, hdial]
        rw [hfirst] at hres
        simp at hres
      | none =>
        by_cases hp : net.probeFails (ftpDialConfig (fillDefaults p₁))
            (ftpAddr (fillDefaults p₁))
        · have hfirst : Ftp.Init net cache nextId p₁ =
              ⟨Except.error GoErr.authenticationFailed, cache, nextId + 1,
               [FtpEvent.dialed (ftpDialConfig (fillDefaults p₁))
                  (ftpAddr (fillDefaults p₁)), FtpEvent.closed nextId]⟩ := by
            unfold Ftp.Init
            simp only [hget, hdial]
            simp [hp]
          rw [hfirst] at hres
          simp at hres
        · have hfirst : Ftp.Init net cache nextId p₁ =
              ⟨Except.ok nextId, cacheSet cache (fillDefaults p₁) nextId,
               nextId + 1,
               [FtpEvent.dialed (ftpDialConfig (fillDefaults p₁))
                  (ftpAddr (fillDefaults p₁))]⟩ := by
            unfold Ftp.Init
            simp only [hget, hdial]
            simp [hp]
          rw [hfirst] at hres
          simp at hres
          subst hres
          rw [hfirst]
          have hhit : cacheGet (cacheSet cache (fillDefaults p₁) nextId) p₂ =
              some nextId := by
            rw [hget2]
            unfold cacheGet cacheSet
            rw [hfill]
            exact cacheLookup_upsert_self _ _ _
          unfold Ftp.Init
          simp only [hhit]
  · intro net cache nextId p₁ p₂ s hcanon hres
    have hget2 : ∀ c : CacheState Samba, cacheGet c p₂ = cacheGet c p₁ := by
      intro c
      unfold cacheGet
      rw [hcanon]
    cases hget : cacheGet cache p₁ with
    | some sm =>
      have hfirst : Samba.Init net cache nextId p₁ =
          ⟨Except.ok sm, cache, nextId, []⟩ := by
        unfold Samba.Init
        simp only [hget]
      rw [hfirst] at hres
      simp at hres
      subst hres
      rw [hfirst]
      unfold Samba.Init
      simp only [hget2, hget]
    | none =>
      cases htcp : net.tcpErr (p₁.get "host" ++ ":" ++
          (if p₁.get "port" = "" then "445" else p₁.get "port")) with
      | some msg =>
        have hfirst : (Samba.Init net cache nextId p₁).result =
            Except.error (GoErr.transport msg) := by
          unfold Samba.Init
          simp only [hget, htcp]
        rw [hfirst] at hres
        simp at hres
      | none =>
        cases hauth : net.authErr (if p₁.get "username" = "" then "Guest"
            else p₁.get "username") (p₁.get "password") (p₁.get "domain") with
        | some msg =>
          have hfirst : (Samba.Init net cache nextId p₁).result =
              Except.error (GoErr.transport msg) := by
            unfold Samba.Init
            simp only [hget, htcp, hauth]
          rw [hfirst] at hres
          simp at hres
        | none =>
          cases hnames : net.shareNames with
          | error msg =>
            have hfirst : (Samba.Init net cache nextId p₁).result =
                Except.error (GoErr.transport msg) := by
              unfold Samba.Init
              simp only [hget, htcp, hauth, hnames]
            rw [hfirst] at hres
            simp at hres
          | ok names =>
            have hfirst : Samba.Init net cache nextId p₁ =
                ⟨Except.ok (Samba.mk nextId (buildShares net.mount names)),
                 cacheSet cache p₁ (Samba.mk nextId (buildShares net.mount names)),
                 nextId + 1,
                 [SmbEvent.tcpDialed (p₁.get "host" ++ ":" ++
                    (if p₁.get "port" = "" then "445" else p₁.get "port")),
                  SmbEvent.authed (if p₁.get "username" = "" then "Guest"
                      else p₁.get "username") (p₁.get "password")
                    (p₁.get "domain"),
                  SmbEvent.listedShares]⟩ := by
              unfold Samba.Init
              simp only [hget, htcp, hauth, hnames]
            rw [hfirst] at hres
            simp at hres
            subst hres
            rw [hfirst]
            have hhit : cacheGet (cacheSet cache p₁
                (Samba.mk nextId (buildShares net.mount names))) p₂ =
                some (Samba.mk nextId (buildShares net.mount names)) := by
              rw [hget2]
              unfold cacheGet cacheSet
              exact cacheLookup_upsert_self _ _ _
            unfold Samba.Init
            simp only [hhit]

/-- Witness for `c1_second_init_returns_cached`: FTP with a fully
specified parameter map (so default-filling is the identity) and the SMB
adapter with a `host` parameter given in two insertion orders — both
second calls return the first call's adapter with no events. -/
theorem c1_second_init_returns_cached_witness :
    (Ftp.Init ftpNetOk
        (Ftp.Init ftpNetOk ⟨[]⟩ 0 ⟨[("hostname", "h"), ("port", "21"),
          ("username", "u"), ("password", "pw")]⟩).cache
        (Ftp.Init ftpNetOk ⟨[]⟩ 0 ⟨[("hostname", "h"), ("port", "21"),
          ("username", "u"), ("password", "pw")]⟩).nextId
        ⟨[("port", "21"), ("hostname", "h"), ("username", "u"),
          ("password", "pw")]⟩).result = Except.ok 0 ∧
    (Ftp.Init ftpNetOk
        (Ftp.Init ftpNetOk ⟨[]⟩ 0 ⟨[("hostname", "h"), ("port", "21"),
          ("username", "u"), ("password", "pw")]⟩).cache
        (Ftp.Init ftpNetOk ⟨[]⟩ 0 ⟨[("hostname", "h"), ("port", "21"),
          ("username", "u"), ("password", "pw")]⟩).nextId
        ⟨[("port", "21"), ("hostname", "h"), ("username", "u"),
          ("password", "pw")]⟩).events = [] ∧
    (Samba.Init smbNetOk
        (Samba.Init smbNetOk ⟨[]⟩ 0 ⟨[("host", "h")]⟩).cache
        (Samba.Init smbNetOk ⟨[]⟩ 0 ⟨[("host", "h")]⟩).nextId
        ⟨[("host", "h")]⟩).events = [] := by
  have h1 := c1_second_init_returns_cached.1 ftpNetOk ⟨[]⟩ 0
    ⟨[("hostname", "h"), ("port", "21"), ("username", "u"), ("password", "pw")]⟩
    ⟨[("port", "21"), ("hostname", "h"), ("username", "u"), ("password", "pw")]⟩
    0 (by decide) (by decide) rfl
  have h2 := c1_second_init_returns_cached.2 smbNetOk ⟨[]⟩ 0
    ⟨[("host", "h")]⟩ ⟨[("host", "h")]⟩
    (Samba.mk 0 (buildShares smbNetOk.mount ["pub".toList, "adm$".toList]))
    rfl rfl
  exact ⟨by rw [h1], by rw [h1], by rw [h2]⟩

/-- C1 counterexample: two `Ftp.Init` calls with content-equal (empty)
parameter maps over a network where everything succeeds: the first
returns adapter 0, but the second misses the cache (which was keyed by
the default-filled mutated map), dials a new connection and returns the
distinct adapter 1. -/
theorem c1_ftp_empty_params_not_cached :
    (Ftp.Init ftpNetOk ⟨[]⟩ 0 ⟨[]⟩).result = Except.ok 0 ∧
    (Ftp.Init ftpNetOk (Ftp.Init ftpNetOk ⟨[]⟩ 0 ⟨[]⟩).cache
        (Ftp.Init ftpNetOk ⟨[]⟩ 0 ⟨[]⟩).nextId ⟨[]⟩).result = Except.ok 1 ∧
    (Except.ok 1 : Except GoErr Nat) ≠ Except.ok 0 ∧
    (Ftp.Init ftpNetOk (Ftp.Init ftpNetOk ⟨[]⟩ 0 ⟨[]⟩).cache
        (Ftp.Init ftpNetOk ⟨[]⟩ 0 ⟨[]⟩).nextId ⟨[]⟩).events ≠ [] := by
  exact ⟨rfl, rfl, by simp, by decide⟩

/-! ## Tree lemmas for the recursive-delete proof -/

theorem size_pos : ∀ t : FNode, 0 < t.size := by
  intro t
  cases t with
  | file c => simp [FNode.size]
  | dir cs => simp [FNode.size]

theorem sizeChildren_cons (e : List Char × FNode) (rest : List (List Char × FNode)) :
    sizeChildren (e :: rest) = e.2.size + sizeChildren rest := by
  rfl

theorem find_append_singleton :
    ∀ (q : List (List Char)) (fs : FNode) (n : List Char),
      fs.find (q ++ [n]) =
        match fs.find q with
        | some (FNode.dir cs) => lookupChild cs n
        | _ => none := by
  intro q
  induction q with
  | nil =>
    intro fs n
    cases fs with
    | file c => simp [FNode.find]
    | dir cs =>
      simp only [List.nil_append, FNode.find]
      cases lookupChild cs n with
      | none => rfl
      | some c => simp [FNode.find]
  | cons s q' ih =>
    intro fs n
    cases fs with
    | file c => simp [FNode.find]
    | dir cs =>
      simp only [List.cons_append, FNode.find]
      cases lookupChild cs s with
      | none => rfl
      | some c => exact ih c n

theorem lookupChild_setAtCh :
    ∀ (cs : List (List Char × FNode)) (s : List Char) (q : List (List Char))
      (m c : FNode), lookupChild cs s = some c →
      lookupChild (setAtCh cs s q m) s = some (c.setAt q m) := by
  intro cs s q m
  induction cs with
  | nil =>
    intro c h
    simp [lookupChild] at h
  | cons e rest ih =>
    obtain ⟨n, c₀⟩ := e
    intro c h
    by_cases hn : n = s
    · subst hn
      simp [lookupChild] at h
      subst h
      simp [setAtCh, lookupChild]
    · simp [lookupChild, hn] at h
      simp [setAtCh, hn, lookupChild]
      exact ih c h

theorem find_setAt :
    ∀ (q : List (List Char)) (fs t m : FNode),
      fs.find q = some t → (fs.setAt q m).find q = some m := by
  intro q
  induction q with
  | nil =>
    intro fs t m _
    simp [FNode.setAt, FNode.find]
  | cons s q' ih =>
    intro fs t m h
    cases fs with
    | file c => simp [FNode.find] at h
    | dir cs =>
      simp only [FNode.find] at h
      cases hl : lookupChild cs s with
      | none => rw [hl] at h; exact absurd h (by simp)
      | some c =>
        rw [hl] at h
        simp only [FNode.setAt, FNode.find]
        rw [lookupChild_setAtCh cs s q' m c hl]
        exact ih c t m h

theorem setAtCh_find_id :
    ∀ (cs : List (List Char × FNode)) (s : List Char) (q : List (List Char))
      (c t : FNode), lookupChild cs s = some c → c.setAt q t = c →
      setAtCh cs s q t = cs := by
  intro cs s q c t
  induction cs with
  | nil =>
    intro h _
    simp [lookupChild] at h
  | cons e rest ih =>
    obtain ⟨n, c₀⟩ := e
    intro h hset
    by_cases hn : n = s
    · subst hn
      simp [lookupChild] at h
      subst h
      simp [setAtCh, hset]
    · simp [lookupChild, hn] at h
      simp [setAtCh, hn]
      exact ih h hset

theorem setAt_find_id :
    ∀ (q : List (List Char)) (fs t : FNode),
      fs.find q = some t → fs.setAt q t = fs := by
  intro q
  induction q with
  | nil =>
    intro fs t h
    simp [FNode.find] at h
    simp [FNode.setAt, h]
  | cons s q' ih =>
    intro fs t h
    cases fs with
    | file c => simp [FNode.find] at h
    | dir cs =>
      simp only [FNode.find] at h
      cases hl : lookupChild cs s with
      | none => rw [hl] at h; exact absurd h (by simp)
      | some c =>
        rw [hl] at h
        simp only [FNode.setAt]
        rw [setAtCh_find_id cs s q' c t hl (ih c t h)]

theorem setAtCh_setAtCh :
    ∀ (cs : List (List Char × FNode)) (s : List Char) (q : List (List Char))
      (a b : FNode),
      (∀ c : FNode, (c.setAt q a).setAt q b = c.setAt q b) →
      setAtCh (setAtCh cs s q a) s q b = setAtCh cs s q b := by
  intro cs s q a b htree
  induction cs with
  | nil => rfl
  | cons e rest ih =>
    obtain ⟨n, c₀⟩ := e
    by_cases hn : n = s
    · subst hn
      simp [setAtCh, htree]
    · simp [setAtCh, hn, ih]

theorem setAt_setAt :
    ∀ (q : List (List Char)) (fs a b : FNode),
      (fs.setAt q a).setAt q b = fs.setAt q b := by
  intro q
  induction q with
  | nil =>
    intro fs a b
    cases fs <;> simp [FNode.setAt]
  | cons s q' ih =>
    intro fs a b
    cases fs with
    | file c => simp [FNode.setAt]
    | dir cs =>
      simp only [FNode.setAt]
      rw [setAtCh_setAtCh cs s q' a b (fun c => ih c a b)]

theorem eraseChild_setAtCh (cs : List (List Char × FNode)) (n : List Char)
    (x : FNode) : eraseChild (setAtCh cs n [] x) n = eraseChild cs n := by
  induction cs with
  | nil => rfl
  | cons e rest ih =>
    obtain ⟨m, c₀⟩ := e
    by_cases hm : m = n
    · subst hm
      simp [setAtCh, eraseChild]
    · simp [setAtCh, hm, eraseChild, ih]

theorem removeAtCh_congr (s : List Char) (q₁ q₂ : List (List Char)) (y : FNode) :
    ∀ cs : List (List Char × FNode),
      (∀ c : FNode, lookupChild cs s = some c → c.removeAt q₁ = c.setAt q₂ y) →
      removeAtCh cs s q₁ = setAtCh cs s q₂ y := by
  intro cs
  induction cs with
  | nil =>
    intro _
    rfl
  | cons e rest ih =>
    obtain ⟨m, c₀⟩ := e
    intro h
    by_cases hm : m = s
    · subst hm
      simp [removeAtCh, setAtCh, h c₀ (by simp [lookupChild])]
    · simp only [removeAtCh, setAtCh, if_neg hm]
      rw [ih (fun c hc => h c (by simp [lookupChild, hm, hc]))]

theorem setAtCh_congr (s : List Char) (q₁ q₂ : List (List Char)) (x y : FNode) :
    ∀ cs : List (List Char × FNode),
      (∀ c : FNode, lookupChild cs s = some c → c.setAt q₁ x = c.setAt q₂ y) →
      setAtCh cs s q₁ x = setAtCh cs s q₂ y := by
  intro cs
  induction cs with
  | nil =>
    intro _
    rfl
  | cons e rest ih =>
    obtain ⟨m, c₀⟩ := e
    intro h
    by_cases hm : m = s
    · subst hm
      simp [setAtCh, h c₀ (by simp [lookupChild])]
    · simp only [setAtCh, if_neg hm]
      rw [ih (fun c hc => h c (by simp [lookupChild, hm, hc]))]

/-- Removing the child `n` of the directory at `q` is replacing that
directory by itself without the `n` entry. -/
theorem removeAt_child_eq_setAt :
    ∀ (q : List (List Char)) (fs : FNode) (cs : List (List Char × FNode))
      (n : List Char), fs.find q = some (FNode.dir cs) →
      fs.removeAt (q ++ [n]) = fs.setAt q (FNode.dir (eraseChild cs n)) := by
  intro q
  induction q with
  | nil =>
    intro fs cs n h
    simp [FNode.find] at h
    subst h
    simp [FNode.removeAt, FNode.setAt]
  | cons s q' ih =>
    intro fs cs n h
    cases fs with
    | file c => simp [FNode.find] at h
    | dir cs₀ =>
      simp only [FNode.find] at h
      cases hl : lookupChild cs₀ s with
      | none => rw [hl] at h; exact absurd h (by simp)
      | some c =>
        rw [hl] at h
        cases hq : q' ++ [n] with
        | nil => exact absurd hq (by simp)
        | cons r rest =>
          simp only [List.cons_append, FNode.setAt]
          rw [hq]
          simp only [FNode.removeAt]
          rw [← hq]
          rw [removeAtCh_congr s (q' ++ [n]) q'
            (FNode.dir (eraseChild cs n)) cs₀
            (fun c₁ hc₁ => by
              rw [hl] at hc₁
              injection hc₁ with hc₁
              subst hc₁
              exact ih c cs n h)]

/-- Replacing the subtree at `q ++ [n]` is replacing the directory at `q`
by itself with the `n` entry overwritten. -/
theorem setAt_child_eq_setAt :
    ∀ (q : List (List Char)) (fs : FNode) (cs : List (List Char × FNode))
      (n : List Char) (x : FNode), fs.find q = some (FNode.dir cs) →
      fs.setAt (q ++ [n]) x = fs.setAt q (FNode.dir (setAtCh cs n [] x)) := by
  intro q
  induction q with
  | nil =>
    intro fs cs n x h
    simp [FNode.find] at h
    subst h
    simp [FNode.setAt]
  | cons s q' ih =>
    intro fs cs n x h
    cases fs with
    | file c => simp [FNode.find] at h
    | dir cs₀ =>
      simp only [FNode.find] at h
      cases hl : lookupChild cs₀ s with
      | none => rw [hl] at h; exact absurd h (by simp)
      | some c =>
        rw [hl] at h
        simp only [List.cons_append, FNode.setAt]
        rw [setAtCh_congr s (q' ++ [n]) q' x
          (FNode.dir (setAtCh cs n [] x)) cs₀
          (fun c₁ hc₁ => by
            rw [hl] at hc₁
            injection hc₁ with hc₁
            subst hc₁
            exact ih c cs n x h)]

/-- Removing the node at `q` ignores a prior replacement of that node. -/
theorem removeAt_setAt (q : List (List Char)) (fs t x : FNode) (hq : q ≠ [])
    (h : fs.find q = some t) :
    (fs.setAt q x).removeAt q = fs.removeAt q := by
  rcases List.eq_nil_or_concat' q with rfl | ⟨q₀, n, rfl⟩
  · exact absurd rfl hq
  · have hsplit := find_append_singleton q₀ fs n
    rw [h] at hsplit
    cases hfs : fs.find q₀ with
    | none => rw [hfs] at hsplit; exact absurd hsplit.symm (by simp)
    | some parent =>
      cases parent with
      | file c => rw [hfs] at hsplit; exact absurd hsplit.symm (by simp)
      | dir cs =>
        rw [hfs] at hsplit
        rw [setAt_child_eq_setAt q₀ fs cs n x hfs]
        rw [removeAt_child_eq_setAt q₀ (fs.setAt q₀ (FNode.dir (setAtCh cs n [] x)))
          (setAtCh cs n [] x) n (find_setAt q₀ fs (FNode.dir cs) _ hfs)]
        rw [removeAt_child_eq_setAt q₀ fs cs n hfs]
        rw [setAt_setAt q₀ fs]
        rw [eraseChild_setAtCh]

/-! ## Well-formedness propagation -/

theorem childrenOk_lookup :
    ∀ (cs : List (List Char × FNode)) (s : List Char) (c : FNode),
      childrenOk cs → lookupChild cs s = some c →
      (s ≠ [] ∧ '/' ∉ s) ∧ FNode.namesOk c := by
  intro cs
  induction cs with
  | nil =>
    intro s c _ h
    simp [lookupChild] at h
  | cons e rest ih =>
    obtain ⟨n, c₀⟩ := e
    intro s c hok h
    rw [childrenOk] at hok
    by_cases hn : n = s
    · subst hn
      simp [lookupChild] at h
      subst h
      exact ⟨⟨hok.1.1, hok.1.2.1⟩, hok.2.1⟩
    · simp [lookupChild, hn] at h
      exact ih s c hok.2.2 h

theorem namesOk_find :
    ∀ (q : List (List Char)) (fs t : FNode),
      FNode.namesOk fs → fs.find q = some t → FNode.namesOk t := by
  intro q
  induction q with
  | nil =>
    intro fs t hok h
    simp [FNode.find] at h
    subst h
    exact hok
  | cons s q' ih =>
    intro fs t hok h
    cases fs with
    | file c => simp [FNode.find] at h
    | dir cs =>
      simp only [FNode.find] at h
      cases hl : lookupChild cs s with
      | none => rw [hl] at h; exact absurd h (by simp)
      | some c =>
        rw [hl] at h
        rw [FNode.namesOk] at hok
        exact ih c t (childrenOk_lookup cs s c hok hl).2 h

theorem setAtCh_keys (cs : List (List Char × FNode)) (s : List Char)
    (q : List (List Char)) (m : FNode) :
    (setAtCh cs s q m).map Prod.fst = cs.map Prod.fst := by
  induction cs with
  | nil => rfl
  | cons e rest ih =>
    obtain ⟨n, c₀⟩ := e
    by_cases hn : n = s
    · subst hn
      simp [setAtCh]
    · simp [setAtCh, hn, ih]

theorem childrenOk_setAtCh (s : List Char) (q : List (List Char)) (m : FNode)
    (htree : ∀ c : FNode, FNode.namesOk c → FNode.namesOk (c.setAt q m)) :
    ∀ cs : List (List Char × FNode), childrenOk cs →
      childrenOk (setAtCh cs s q m) := by
  intro cs
  induction cs with
  | nil =>
    intro h
    exact h
  | cons e rest ih =>
    obtain ⟨n, c₀⟩ := e
    intro hok
    rw [childrenOk] at hok
    by_cases hn : n = s
    · subst hn
      simp only [setAtCh, if_pos rfl]
      simp only [childrenOk]
      exact ⟨hok.1, htree c₀ hok.2.1, hok.2.2⟩
    · simp only [setAtCh, if_neg hn]
      simp only [childrenOk]
      refine ⟨⟨hok.1.1, hok.1.2.1, ?_⟩, hok.2.1, ih hok.2.2⟩
      rw [setAtCh_keys]
      exact hok.1.2.2

theorem namesOk_setAt :
    ∀ (q : List (List Char)) (fs m : FNode),
      FNode.namesOk fs → FNode.namesOk m → FNode.namesOk (fs.setAt q m) := by
  intro q
  induction q with
  | nil =>
    intro fs m _ hm
    cases fs <;> simpa [FNode.setAt] using hm
  | cons s q' ih =>
    intro fs m hok hm
    cases fs with
    | file c => simpa [FNode.setAt] using hok
    | dir cs =>
      simp only [FNode.setAt]
      rw [FNode.namesOk] at hok ⊢
      exact childrenOk_setAtCh s q' m (fun c hc => ih c m hc hm) cs hok

theorem lookupChild_none_of_not_mem :
    ∀ (cs : List (List Char × FNode)) (s : List Char),
      s ∉ cs.map Prod.fst → lookupChild cs s = none := by
  intro cs
  induction cs with
  | nil =>
    intro s _
    rfl
  | cons e rest ih =>
    obtain ⟨n, c₀⟩ := e
    intro s h
    have hn : ¬n = s := by
      intro hh
      apply h
      rw [List.map_cons, ← hh]
      exact List.mem_cons_self _ _
    have h2 : s ∉ rest.map Prod.fst := by
      intro hmem
      apply h
      rw [List.map_cons]
      exact List.mem_cons_of_mem _ hmem
    simp only [lookupChild, if_neg hn]
    exact ih s h2

theorem lookupChild_eraseChild_self :
    ∀ (cs : List (List Char × FNode)) (n : List Char),
      childrenOk cs → lookupChild (eraseChild cs n) n = none := by
  intro cs
  induction cs with
  | nil =>
    intro n _
    rfl
  | cons e rest ih =>
    obtain ⟨m, c₀⟩ := e
    intro n hok
    rw [childrenOk] at hok
    by_cases hm : m = n
    · subst hm
      simp only [eraseChild, if_pos rfl]
      exact lookupChild_none_of_not_mem rest m hok.1.2.2
    · simp only [eraseChild, if_neg hm, lookupChild, if_neg hm]
      exact ih n hok.2.2

/-- After `removeAt (q ++ [n])` the directory at `q` no longer has an
`n` entry, so the removed subtree is unreachable. -/
theorem find_removeAt_self (q : List (List Char)) (fs t : FNode) (hq : q ≠ [])
    (hok : FNode.namesOk fs) (h : fs.find q = some t) :
    (fs.removeAt q).find q = none := by
  rcases List.eq_nil_or_concat' q with rfl | ⟨q₀, n, rfl⟩
  · exact absurd rfl hq
  · have hsplit := find_append_singleton q₀ fs n
    rw [h] at hsplit
    cases hfs : fs.find q₀ with
    | none => rw [hfs] at hsplit; exact absurd hsplit.symm (by simp)
    | some parent =>
      cases parent with
      | file c => rw [hfs] at hsplit; exact absurd hsplit.symm (by simp)
      | dir cs =>
        rw [removeAt_child_eq_setAt q₀ fs cs n hfs]
        have hfind := find_setAt q₀ fs (FNode.dir cs)
          (FNode.dir (eraseChild cs n)) hfs
        rw [find_append_singleton q₀, hfind]
        have hcs : childrenOk cs := by
          have := namesOk_find q₀ fs (FNode.dir cs) hok hfs
          rwa [FNode.namesOk] at this
        exact lookupChild_eraseChild_self cs n hcs

/-! ## Path-segment lemmas -/

theorem segsOf_append_slash (l m : List Char) :
    segsOf (l ++ '/' :: m) = segsOf l ++ segsOf m := by
  unfold segsOf
  rw [splitSlash_append_slash, List.filter_append]

theorem segsOf_trailing_slash (l : List Char) :
    segsOf (l ++ ['/']) = segsOf l := by
  have : l ++ ['/'] = l ++ '/' :: [] := rfl
  rw [this, segsOf_append_slash]
  simp [segsOf, splitSlash]

theorem segsOf_no_slash (n : List Char) (hne : n ≠ []) (hns : '/' ∉ n) :
    segsOf n = [n] := by
  unfold segsOf
  rw [splitSlash_no_slash n hns]
  simp [hne]

theorem exists_dropLast_slash (p : List Char) (hp : isDirectory p = true) :
    p.dropLast ++ ['/'] = p := by
  unfold isDirectory at hp
  rw [decide_eq_true_eq] at hp
  exact List.dropLast_append_getLast? '/' hp

theorem segsOf_dir_append (p n : List Char) (hp : isDirectory p = true)
    (hne : n ≠ []) (hns : '/' ∉ n) :
    segsOf (p ++ n) = segsOf p ++ [n] := by
  rw [← exists_dropLast_slash p hp]
  have h1 : p.dropLast ++ ['/'] ++ n = p.dropLast ++ '/' :: n := by simp
  have h2 : p.dropLast ++ ['/'] = p.dropLast ++ '/' :: [] := rfl
  rw [h1, h2, segsOf_append_slash, segsOf_append_slash,
    segsOf_no_slash n hne hns]
  simp [segsOf, splitSlash]

theorem segsOf_dir_append_slash (p n : List Char) (hp : isDirectory p = true)
    (hne : n ≠ []) (hns : '/' ∉ n) :
    segsOf (p ++ n ++ ['/']) = segsOf p ++ [n] := by
  rw [segsOf_trailing_slash, segsOf_dir_append p n hp hne hns]

theorem isDirectory_append_slash (l : List Char) :
    isDirectory (l ++ ['/']) = true := by
  unfold isDirectory
  rw [decide_eq_true_eq]
  exact List.getLast?_concat l

theorem isDirectory_append_name (p n : List Char) (hne : n ≠ [])
    (hns : '/' ∉ n) : isDirectory (p ++ n) = false := by
  unfold isDirectory
  rw [decide_eq_false_iff_not]
  intro h
  rw [List.getLast?_append_of_ne_nil p hne] at h
  obtain ⟨hh, heq⟩ := List.mem_getLast?_eq_getLast h
  apply hns
  rw [heq]
  exact List.getLast_mem hh

/-! ## Unfolding lemmas for `rm` -/

theorem rm_zero {σ : Type} (ops : FtpRmOps σ) (s : σ) (path : List Char) :
    rm ops 0 s path = (some (GoErr.transport "recursion fuel exhausted"), s) := by
  rfl

theorem rm_succ_file {σ : Type} (ops : FtpRmOps σ) (fuel : Nat) (s : σ)
    (path : List Char) (h : isDirectory path = false) :
    rm ops (fuel + 1) s path =
      (transformError (ops.delete s path).1, (ops.delete s path).2) := by
  simp [rm, h]

theorem rm_succ_dir_readDir_fail {σ : Type} (ops : FtpRmOps σ) (fuel : Nat)
    (s : σ) (path : List Char) (e : GoErr) (h : isDirectory path = true)
    (hrd : transformError (ops.readDir s path).2 = some e) :
    rm ops (fuel + 1) s path = ((ops.readDir s path).2, s) := by
  simp [rm, h, hrd]

theorem rm_succ_dir_loop_fail {σ : Type} (ops : FtpRmOps σ) (fuel : Nat)
    (s s₁ : σ) (path : List Char) (err : GoErr) (h : isDirectory path = true)
    (hrd : transformError (ops.readDir s path).2 = none)
    (hloop : rmLoop (rm ops fuel) path (ops.readDir s path).1 s = (some err, s₁)) :
    rm ops (fuel + 1) s path = (some err, s₁) := by
  simp [rm, h, hrd, hloop]

theorem rm_succ_dir_loop_ok {σ : Type} (ops : FtpRmOps σ) (fuel : Nat)
    (s s₁ : σ) (path : List Char) (h : isDirectory path = true)
    (hrd : transformError (ops.readDir s path).2 = none)
    (hloop : rmLoop (rm ops fuel) path (ops.readDir s path).1 s = (none, s₁)) :
    rm ops (fuel + 1) s path =
      (transformError (ops.rmdir s₁ path).1, (ops.rmdir s₁ path).2) := by
  simp [rm, h, hrd, hloop]

theorem rmLoop_nil {σ : Type} (rmRec : σ → List Char → Option GoErr × σ)
    (path : List Char) (s : σ) : rmLoop rmRec path [] s = (none, s) := by
  rfl

theorem rmLoop_cons_ok {σ : Type} (rmRec : σ → List Char → Option GoErr × σ)
    (path : List Char) (e : DirEntry) (rest : List DirEntry) (s : σ)
    (hrec : transformError (rmRec s
      (if e.isDir then path ++ e.name ++ ['/'] else path ++ e.name)).1 = none) :
    rmLoop rmRec path (e :: rest) s =
      rmLoop rmRec path rest (rmRec s
        (if e.isDir then path ++ e.name ++ ['/'] else path ++ e.name)).2 := by
  simp only [rmLoop, hrec]

theorem rmLoop_cons_fail {σ : Type} (rmRec : σ → List Char → Option GoErr × σ)
    (path : List Char) (e : DirEntry) (rest : List DirEntry) (s : σ)
    (err : GoErr)
    (hrec : transformError (rmRec s
      (if e.isDir then path ++ e.name ++ ['/'] else path ++ e.name)).1 = some err) :
    rmLoop rmRec path (e :: rest) s =
      ((rmRec s (if e.isDir then path ++ e.name ++ ['/'] else path ++ e.name)).1,
       (rmRec s (if e.isDir then path ++ e.name ++ ['/'] else path ++ e.name)).2) := by
  simp only [rmLoop, hrec]

/-! ## Behavior of the server model -/

theorem srvReadDir_dir (succ : Option GoErr) (fs : FNode) (p : List Char)
    (cs : List (List Char × FNode))
    (h : fs.find (segsOf p) = some (FNode.dir cs)) :
    (srvOps succ).readDir fs p = (entriesOf cs, succ) := by
  simp [srvOps, srvReadDir, h]

theorem srvDelete_file (succ : Option GoErr) (fs : FNode) (p : List Char)
    (cnt : List Char) (h : fs.find (segsOf p) = some (FNode.file cnt)) :
    (srvOps succ).delete fs p = (succ, fs.removeAt (segsOf p)) := by
  simp [srvOps, srvDelete, h]

theorem srvRmdir_empty (succ : Option GoErr) (fs : FNode) (p : List Char)
    (hq : segsOf p ≠ []) (h : fs.find (segsOf p) = some (FNode.dir [])) :
    (srvOps succ).rmdir fs p = (succ, fs.removeAt (segsOf p)) := by
  cases hsp : segsOf p with
  | nil => exact absurd hsp hq
  | cons a b =>
    rw [hsp] at h
    simp [srvOps, srvRmdir, hsp, h]

/-! ## The recursive-delete theorem over the server model -/

theorem rmLoop_srv_clean (succ : Option GoErr) (fuel : Nat)
    (IH : ∀ (fs : FNode) (q : List (List Char)) (c : FNode) (p : List Char),
      FNode.namesOk fs → fs.find q = some c → q ≠ [] → c.size ≤ fuel →
      segsOf p = q → isDirectory p = c.isDir →
      rm (srvOps succ) fuel fs p = (none, fs.removeAt q)) :
    ∀ (cs : List (List Char × FNode)) (fs : FNode) (q : List (List Char))
      (p : List Char), FNode.namesOk fs → fs.find q = some (FNode.dir cs) →
      sizeChildren cs ≤ fuel → segsOf p = q → isDirectory p = true →
      rmLoop (rm (srvOps succ) fuel) p (entriesOf cs) fs =
        (none, fs.setAt q (FNode.dir [])) := by
  intro cs
  induction cs with
  | nil =>
    intro fs q p _ hfind _ _ _
    have : entriesOf [] = [] := rfl
    rw [this, rmLoop_nil, setAt_find_id q fs (FNode.dir []) hfind]
  | cons e rest ihcs =>
    obtain ⟨n, c⟩ := e
    intro fs q p hok hfind hsize hsegs hdir
    have hcs : childrenOk ((n, c) :: rest) := by
      have := namesOk_find q fs (FNode.dir ((n, c) :: rest)) hok hfind
      rwa [FNode.namesOk] at this
    rw [childrenOk] at hcs
    obtain ⟨⟨hne, hns, _hnm⟩, hcok, hrok⟩ := hcs
    have hchildfind : fs.find (q ++ [n]) = some c := by
      rw [find_append_singleton, hfind]
      simp [lookupChild]
    have hentries : entriesOf ((n, c) :: rest) =
        DirEntry.mk n c.isDir :: entriesOf rest := rfl
    have hpath : (if (DirEntry.mk n c.isDir).isDir then p ++ n ++ ['/']
        else p ++ n) = (if c.isDir then p ++ n ++ ['/'] else p ++ n) := rfl
    have hsegs' : segsOf (if c.isDir then p ++ n ++ ['/'] else p ++ n) =
        q ++ [n] := by
      cases hc : c.isDir
      · rw [if_neg (by simp)]
        rw [segsOf_dir_append p n hdir hne hns, hsegs]
      · rw [if_pos rfl]
        rw [segsOf_dir_append_slash p n hdir hne hns, hsegs]
    have hdir' : isDirectory (if c.isDir then p ++ n ++ ['/'] else p ++ n) =
        c.isDir := by
      cases hc : c.isDir
      · rw [if_neg (by simp)]
        exact isDirectory_append_name p n hne hns
      · rw [if_pos rfl]
        exact isDirectory_append_slash (p ++ n)
    have hcsize : c.size ≤ fuel := by
      rw [sizeChildren_cons] at hsize
      have hsize2 : c.size + sizeChildren rest ≤ fuel := hsize
      omega
    have hrec := IH fs (q ++ [n]) c
      (if c.isDir then p ++ n ++ ['/'] else p ++ n) hok hchildfind (by simp)
      hcsize hsegs' hdir'
    rw [hentries]
    rw [rmLoop_cons_ok (rm (srvOps succ) fuel) p (DirEntry.mk n c.isDir)
      (entriesOf rest) fs (by rw [hpath, hrec]; rfl)]
    rw [hpath, hrec]
    have hbridge : fs.removeAt (q ++ [n]) = fs.setAt q (FNode.dir rest) := by
      rw [removeAt_child_eq_setAt q fs ((n, c) :: rest) n hfind]
      have : eraseChild ((n, c) :: rest) n = rest := by simp [eraseChild]
      rw [this]
    rw [hbridge]
    have hok1 : FNode.namesOk (fs.setAt q (FNode.dir rest)) := by
      apply namesOk_setAt q fs (FNode.dir rest) hok
      rw [FNode.namesOk]
      exact hrok
    have hfind1 : (fs.setAt q (FNode.dir rest)).find q = some (FNode.dir rest) :=
      find_setAt q fs (FNode.dir ((n, c) :: rest)) (FNode.dir rest) hfind
    have hsize1 : sizeChildren rest ≤ fuel := by
      rw [sizeChildren_cons] at hsize
      have hsize2 : c.size + sizeChildren rest ≤ fuel := hsize
      omega
    rw [ihcs (fs.setAt q (FNode.dir rest)) q p hok1 hfind1 hsize1 hsegs hdir]
    rw [setAt_setAt]

theorem childrenOkB_sound (n : Nat)
    (ih : ∀ t : FNode, t.size ≤ n → FNode.namesOkB t = true → FNode.namesOk t) :
    ∀ cs : List (List Char × FNode), sizeChildren cs ≤ n →
      childrenOkB cs = true → childrenOk cs := by
  intro cs
  induction cs with
  | nil =>
    intro _ _
    rw [childrenOk]
    trivial
  | cons e rest ihcs =>
    obtain ⟨m, c⟩ := e
    intro hsize hb
    rw [childrenOkB] at hb
    simp only [Bool.and_eq_true, decide_eq_true_eq] at hb
    rw [sizeChildren_cons] at hsize
    have hsize2 : c.size + sizeChildren rest ≤ n := hsize
    have hc := size_pos c
    rw [childrenOk]
    exact ⟨⟨hb.1.1.1.1, hb.1.1.1.2, hb.1.1.2⟩,
      ih c (by omega) hb.1.2, ihcs (by omega) hb.2⟩

theorem namesOkB_sound_fuel :
    ∀ (n : Nat) (t : FNode), t.size ≤ n → FNode.namesOkB t = true →
      FNode.namesOk t := by
  intro n
  induction n with
  | zero =>
    intro t hsize _
    have := size_pos t
    omega
  | succ n ih =>
    intro t hsize hb
    cases t with
    | file c =>
      rw [FNode.namesOk]
      trivial
    | dir cs =>
      rw [FNode.namesOk]
      rw [FNode.namesOkB] at hb
      have hsz : (FNode.dir cs).size = 1 + sizeChildren cs := by
        simp [FNode.size]
      rw [hsz] at hsize
      exact childrenOkB_sound n ih cs (by omega) hb

/-- A tree whose Boolean well-formedness check passes is well-formed. -/
theorem namesOkB_sound (t : FNode) (h : FNode.namesOkB t = true) :
    FNode.namesOk t :=
  namesOkB_sound_fuel t.size t (Nat.le_refl _) h

theorem rm_srv_clean (succ : Option GoErr) (hsucc : transformError succ = none) :
    ∀ (fuel : Nat) (fs : FNode) (q : List (List Char)) (c : FNode) (p : List Char),
      FNode.namesOk fs → fs.find q = some c → q ≠ [] → c.size ≤ fuel →
      segsOf p = q → isDirectory p = c.isDir →
      rm (srvOps succ) fuel fs p = (none, fs.removeAt q) := by
  intro fuel
  induction fuel with
  | zero =>
    intro fs q c p _ _ _ hsize _ _
    have := size_pos c
    omega
  | succ fuel ih =>
    intro fs q c p hok hfind hq hsize hsegs hdir
    cases c with
    | file cnt =>
      have hdel := srvDelete_file succ fs p cnt (by rw [hsegs]; exact hfind)
      rw [rm_succ_file (srvOps succ) fuel fs p (by rw [hdir]; rfl)]
      rw [hdel, hsucc, hsegs]
    | dir cs =>
      have hdirp : isDirectory p = true := by rw [hdir]; rfl
      have hrd := srvReadDir_dir succ fs p cs (by rw [hsegs]; exact hfind)
      have hcssize : sizeChildren cs ≤ fuel := by
        have : (FNode.dir cs).size = 1 + sizeChildren cs := by
          simp [FNode.size]
        rw [this] at hsize
        omega
      have hloop := rmLoop_srv_clean succ fuel ih cs fs q p hok hfind
        hcssize hsegs hdirp
      rw [rm_succ_dir_loop_ok (srvOps succ) fuel fs (fs.setAt q (FNode.dir []))
        p hdirp (by rw [hrd]; exact hsucc) (by rw [hrd]; exact hloop)]
      have hfind1 : (fs.setAt q (FNode.dir [])).find (segsOf p) =
          some (FNode.dir []) := by
        rw [hsegs]
        exact find_setAt q fs (FNode.dir cs) (FNode.dir []) hfind
      rw [srvRmdir_empty succ (fs.setAt q (FNode.dir [])) p
        (by rw [hsegs]; exact hq) hfind1]
      rw [hsucc, hsegs, removeAt_setAt q fs (FNode.dir cs) (FNode.dir []) hq hfind]

theorem transformError_some (e : GoErr)
    (h : transformError (some e) ≠ none) :
    transformError (some e) = some e := by
  cases e with
  | goftp c m =>
    by_cases hc : c < 300 ∧ 0 < c
    · exact absurd (by simp [transformError, hc]) h
    · simp [transformError, hc]
  | authenticationFailed => rfl
  | notFound => rfl
  | permissionDenied => rfl
  | notAllowed => rfl
  | notImplemented => rfl
  | newError m s => rfl
  | transport m => rfl
  | smbRaw r => rfl

/-! ## C3: recursive delete -/

/-- C3: a path without a trailing slash is deleted by a single direct
`Delete` call (over any client/server); a trailing-slash path resolving
to a directory of the well-behaved server has its children recursively
deleted (subdirectories via recursion with a trailing slash appended,
files directly) and then the emptied directory removed: the call returns
success, the whole subtree is pruned from the remote filesystem, and the
directory itself no longer resolves. -/
theorem c3_recursive_delete :
    (∀ {σ : Type} (ops : FtpRmOps σ) (fuel : Nat) (s : σ) (path : List Char),
      isDirectory path = false →
      rm ops (fuel + 1) s path =
        (transformError (ops.delete s path).1, (ops.delete s path).2)) ∧
    (∀ (fuel : Nat) (fs : FNode) (q : List (List Char))
      (cs : List (List Char × FNode)) (p : List Char),
      FNode.namesOk fs → fs.find q = some (FNode.dir cs) → q ≠ [] →
      (FNode.dir cs).size ≤ fuel → segsOf p = q → isDirectory p = true →
      rm (srvOps none) fuel fs p = (none, fs.removeAt q) ∧
        (fs.removeAt q).find q = none) := by
  constructor
  · intro σ ops fuel s path h
    exact rm_succ_file ops fuel s path h
  · intro fuel fs q cs p hok hfind hq hsize hsegs hdir
    refine ⟨rm_srv_clean none rfl fuel fs q (FNode.dir cs) p hok hfind hq hsize
      hsegs (by rw [hdir]; rfl), ?_⟩
    exact find_removeAt_self q fs (FNode.dir cs) hq hok hfind

/-- Witness for `c3_recursive_delete` on the example tree `fsEx`:
deleting the file path `/keep` is one direct `Delete`; deleting the
directory path `/d/` (a file, plus a subdirectory with a file) succeeds,
leaves only `keep`, and `d` no longer resolves. -/
theorem c3_recursive_delete_witness :
    rm (srvOps none) 1 fsEx "/keep".toList =
      (transformError ((srvOps none).delete fsEx "/keep".toList).1,
       ((srvOps none).delete fsEx "/keep".toList).2) ∧
    rm (srvOps none) 10 fsEx "/d/".toList =
      (none, fsEx.removeAt ["d".toList]) ∧
    (fsEx.removeAt ["d".toList]).find ["d".toList] = none := by
  have h2 := c3_recursive_delete.2 10 fsEx ["d".toList]
    [("a".toList, FNode.file "x".toList),
     ("s".toList, FNode.dir [("b".toList, FNode.file "y".toList)])]
    "/d/".toList (namesOkB_sound fsEx (by decide)) rfl (by decide) (by decide)
    rfl (by decide)
  exact ⟨c3_recursive_delete.1 (srvOps none) 0 fsEx "/keep".toList (by decide),
    h2.1, h2.2⟩

/-! ## C4: error-code tolerance during recursive delete -/

/-- C4: `transformError` converts exactly the success-range protocol
codes (0 < code < 300) reported alongside an error object into success;
a permission-denied code 550 and any non-goftp error pass through as
genuine failures; the recursive delete completes unaborted over a server
that misreports a success-range code with every successful operation;
and a genuine failure while deleting a listed child makes `rm` return
that error with the state at the failure point, processing none of the
remaining entries. -/
theorem c4_success_range_tolerance :
    (∀ (c : Int) (m : String), 0 < c → c < 300 →
      transformError (some (GoErr.goftp c m)) = none) ∧
    (∀ m : String, transformError (some (GoErr.goftp 550 m)) =
        some (GoErr.goftp 550 m)) ∧
    (∀ e : GoErr, (∀ (c : Int) (m : String), e ≠ GoErr.goftp c m) →
      transformError (some e) = some e) ∧
    (∀ (c : Int) (m : String) (fuel : Nat) (fs : FNode)
      (q : List (List Char)) (cs : List (List Char × FNode)) (p : List Char),
      0 < c → c < 300 →
      FNode.namesOk fs → fs.find q = some (FNode.dir cs) → q ≠ [] →
      (FNode.dir cs).size ≤ fuel → segsOf p = q → isDirectory p = true →
      rm (srvOps (some (GoErr.goftp c m))) fuel fs p =
        (none, fs.removeAt q)) ∧
    (∀ {σ : Type} (ops : FtpRmOps σ) (fuel : Nat) (s s' : σ)
      (path : List Char) (e : DirEntry) (rest : List DirEntry)
      (rerr : Option GoErr) (err : GoErr),
      isDirectory path = true → ops.readDir s path = (e :: rest, rerr) →
      transformError rerr = none →
      rm ops fuel s
        (if e.isDir then path ++ e.name ++ ['/'] else path ++ e.name) =
        (some err, s') →
      transformError (some err) ≠ none →
      rm ops (fuel + 1) s path = (some err, s')) := by
  refine ⟨?_, ?_, ?_, ?_, ?_⟩
  · intro c m h1 h2
    simp [transformError, h1, h2]
  · intro m
    simp [transformError]
  · intro e h
    cases e with
    | goftp c m => exact absurd rfl (h c m)
    | authenticationFailed => rfl
    | notFound => rfl
    | permissionDenied => rfl
    | notAllowed => rfl
    | notImplemented => rfl
    | newError m s => rfl
    | transport m => rfl
    | smbRaw r => rfl
  · intro c m fuel fs q cs p h1 h2 hok hfind hq hsize hsegs hdir
    exact rm_srv_clean (some (GoErr.goftp c m)) (by simp [transformError, h1, h2])
      fuel fs q (FNode.dir cs) p hok hfind hq hsize hsegs (by rw [hdir]; rfl)
  · intro σ ops fuel s s' path e rest rerr err hdir hrd htol hrm hgen
    have hfail := rmLoop_cons_fail (rm ops fuel) path e rest s err
      (by rw [hrm]; exact transformError_some err hgen)
    rw [hrm] at hfail
    exact rm_succ_dir_loop_fail ops fuel s s' path err hdir
      (by rw [hrd]; exact htol) (by rw [hrd]; exact hfail)

/-- Witness for `c4_success_range_tolerance`: code 226 with an error
object is tolerated; 550 and `ErrNotFound` are genuine; the recursive
delete of `/d/` completes over the misreporting server; and over
`permDeniedOps` the 550 failure on child `a` aborts `rm` of `/x/` with
that error after the first child. -/
theorem c4_success_range_tolerance_witness :
    transformError (some (GoErr.goftp 226 "Transfer complete")) = none ∧
    transformError (some (GoErr.goftp 550 "denied")) =
      some (GoErr.goftp 550 "denied") ∧
    transformError (some GoErr.notFound) = some GoErr.notFound ∧
    rm (srvOps (some (GoErr.goftp 226 "Transfer complete"))) 10 fsEx
      "/d/".toList = (none, fsEx.removeAt ["d".toList]) ∧
    rm permDeniedOps 2 0 "/x/".toList = (some (GoErr.goftp 550 "denied"), 0) := by
  refine ⟨c4_success_range_tolerance.1 226 "Transfer complete" (by decide)
      (by decide),
    c4_success_range_tolerance.2.1 "denied",
    c4_success_range_tolerance.2.2.1 GoErr.notFound
      (fun c m h => GoErr.noConfusion h),
    c4_success_range_tolerance.2.2.2.1 226 "Transfer complete" 10 fsEx
      ["d".toList]
      [("a".toList, FNode.file "x".toList),
       ("s".toList, FNode.dir [("b".toList, FNode.file "y".toList)])]
      "/d/".toList (by decide) (by decide) (namesOkB_sound fsEx (by decide))
      rfl (by decide) (by decide) rfl (by decide),
    c4_success_range_tolerance.2.2.2.2 permDeniedOps 1 0 0 "/x/".toList
      (DirEntry.mk "a".toList false) [DirEntry.mk "b".toList false] none
      (GoErr.goftp 550 "denied") (by decide) rfl rfl (by decide) (by decide)⟩

end SFTP
